import Mathlib
/-!
# Verification of the `localclustering` repository

Shallow embedding of the core of the `localclustering` Python package:
the incrementally maintained `Cluster` (cluster.py), the connectivity
scoring policy (definitions/connectivity.py), the step history
(history.py), the rank provider (ranking.py) and the multi-step engine
loop (localengine.py).

Modelling conventions:
* A Python `Node` object is identified by an object id (`OID`).  Its
  mutable attributes (`index`, `name` irrelevant here, `degree`,
  `neighbors`) live in a `GraphSt`, an association list from object id
  to `NodeData`; `node.degree` and `node.neighbors` may grow over time
  via the neighbor-added event, exactly as in `graphscraper`.
* Python `dict` objects keyed by `node.index` are embedded as
  insertion-ordered association lists (`dget` = `dict.get`,
  `dput` = `d[k] = v`, `ddel` = `del d[k]`), matching CPython's
  order-preserving dict semantics.
* Python object equality between two `Node` handles is object identity,
  i.e. equality of object ids.
* `raise ValueError` / `TypeError` / `IndexError` are embedded as a
  `PyError` value.  Because Python mutates objects in place and an
  exception leaves the partial mutation visible, every mutating cluster
  operation returns the final (possibly partially mutated) cluster
  together with `Option PyError`: `none` means the call completed.
* Python `float` is embedded as `ℚ` (the claims under scrutiny concern
  the algebraic structure of the computations, not rounding).
-/

/-! ## Definitions: shallow embedding of the source -/

/-- Object identity of a Python `Node` object. -/
abbrev OID := Nat

/-- The per-object data of a `graphscraper` node: its `index` attribute,
its `degree` attribute and its `neighbors` attribute (a list of node
objects, here their object ids). -/
structure NodeData where
  index : Int
  deg : Nat
  nbrs : List OID
deriving DecidableEq, Repr

/-- The mutable graph world: object id ↦ node data. -/
abbrev GraphSt := List (Nat × NodeData)

/-- Embedded Python exceptions raised by the modelled code. -/
inductive PyError where
  /-- `ValueError("The received node was None.")` -/
  | nullArgument
  /-- `ValueError("A different node with the same key ...")` -/
  | identityConflict
  /-- `TypeError` from iterating `None` -/
  | typeError
  /-- `IndexError` from `list[-1]` on an empty list -/
  | indexError
deriving DecidableEq, Repr

/-- `dict.get k` on an insertion-ordered association list. -/
def dget {κ β : Type} [DecidableEq κ] (k : κ) : List (κ × β) → Option β
  | [] => none
  | p :: t => if p.1 = k then some p.2 else dget k t

/-- `d[k] = v` on an insertion-ordered association list: update in place
if the key is present, append otherwise (CPython dict semantics). -/
def dput {κ β : Type} [DecidableEq κ] (k : κ) (v : β) : List (κ × β) → List (κ × β)
  | [] => [(k, v)]
  | p :: t => if p.1 = k then (k, v) :: t else p :: dput k v t

/-- `del d[k]` on an association list (removes the first binding). -/
def ddel {κ β : Type} [DecidableEq κ] (k : κ) : List (κ × β) → List (κ × β)
  | [] => []
  | p :: t => if p.1 = k then t else p :: ddel k t

/-- The keys of an association list. -/
def dkeys {κ β : Type} (l : List (κ × β)) : List κ := l.map Prod.fst

/-- The values of an association list, in insertion order
(`dict.values()`). -/
def dvals {κ β : Type} (l : List (κ × β)) : List β := l.map Prod.snd

/-- Dereference a node object id in the graph world.  The default is
never relevant: all modelled operations are invoked on object ids
present in the graph. -/
def getND (g : GraphSt) (o : OID) : NodeData := (dget o g).getD ⟨0, 0, []⟩

/-- `Cluster.__init__`: the three identity-keyed dictionaries
(`_source_nodes`, `_nodes`, `_neighbors`, each `index ↦ node`), the
aggregate `degree`, and the set of node objects currently carrying the
cluster's neighbor-added event listener. -/
structure Cluster where
  srcs : List (Int × OID)
  nodes : List (Int × OID)
  nbrs : List (Int × OID)
  degree : Int
  listeners : List OID
deriving DecidableEq, Repr

/-- A freshly constructed `Cluster()`. -/
def emptyCluster : Cluster := ⟨[], [], [], 0, []⟩

/-- Result of a mutating cluster operation: the final cluster state and
the exception that escaped, if any (`none` = completed normally). -/
abbrev CRes := Cluster × Option PyError

/-- `Cluster.__contains__` (the `in` operator).  `None` is not
contained; a different object stored under the queried node's index
raises `ValueError`. -/
def containsNode (g : GraphSt) (c : Cluster) : Option OID → Except PyError Bool
  | none => .ok false
  | some o =>
    match dget (getND g o).index c.nodes with
    | some o' => if o' = o then .ok true else .error .identityConflict
    | none => .ok false

/-- `Cluster.is_neighbor`. -/
def isNeighbor (g : GraphSt) (c : Cluster) : Option OID → Except PyError Bool
  | none => .ok false
  | some o =>
    match dget (getND g o).index c.nbrs with
    | some o' => if o' = o then .ok true else .error .identityConflict
    | none => .ok false

/-- `Cluster.is_source_node`. -/
def isSourceNode (g : GraphSt) (c : Cluster) : Option OID → Except PyError Bool
  | none => .ok false
  | some o =>
    match dget (getND g o).index c.srcs with
    | some o' => if o' = o then .ok true else .error .identityConflict
    | none => .ok false

/-- `Cluster._add_neighbor_candidate`. -/
def addNeighborCandidate (g : GraphSt) (c : Cluster) (o : OID) : CRes :=
  match containsNode g c (some o) with
  | .error e => (c, some e)
  | .ok true => (c, none)
  | .ok false =>
    match isNeighbor g c (some o) with
    | .error e => (c, some e)
    | .ok true => (c, none)
    | .ok false => ({ c with nbrs := dput (getND g o).index o c.nbrs }, none)

/-- Run a Python `for` loop whose body may raise: stop at the first
exception, keeping the state mutated so far. -/
def foldStop {α : Type} (f : Cluster → α → CRes) : Cluster → List α → CRes
  | c, [] => (c, none)
  | c, a :: t =>
    match f c a with
    | (c', none) => foldStop f c' t
    | (c', some e) => (c', some e)

/-- `Cluster.add_node`. -/
def add_node (g : GraphSt) (c : Cluster) : Option OID → CRes
  | none => (c, some .nullArgument)
  | some o =>
    let nd := getND g o
    match dget nd.index c.nodes with
    | some o' => if o' = o then (c, none) else (c, some .identityConflict)
    | none =>
      let c1 : Cluster :=
        { c with
          nodes := dput nd.index o c.nodes
          listeners := o :: c.listeners
          degree := c.degree + nd.deg }
      match foldStop (addNeighborCandidate g) c1 nd.nbrs with
      | (c2, some e) => (c2, some e)
      | (c2, none) =>
        match dget nd.index c2.nbrs with
        | some o' =>
          if o' = o then ({ c2 with nbrs := ddel nd.index c2.nbrs }, none)
          else (c2, some .identityConflict)
        | none => (c2, none)

/-- `Cluster.add_source_node`. -/
def add_source_node (g : GraphSt) (c : Cluster) : Option OID → CRes
  | none => (c, some .nullArgument)
  | some o =>
    match dget (getND g o).index c.srcs with
    | some o' => if o' = o then (c, none) else (c, some .identityConflict)
    | none =>
      match containsNode g c (some o) with
      | .error e => (c, some e)
      | .ok b =>
        match (if b then (c, none) else add_node g c (some o) : CRes) with
        | (c1, some e) => (c1, some e)
        | (c1, none) => ({ c1 with srcs := dput (getND g o).index o c1.srcs }, none)

/-- `Cluster.add_nodes` (note: no `None` guard in the source — iterating
`None` raises `TypeError`). -/
def add_nodes (g : GraphSt) (c : Cluster) : Option (List OID) → CRes
  | none => (c, some .typeError)
  | some l => foldStop (fun c o => add_node g c (some o)) c l

/-- `Cluster.add_source_nodes` (again no `None` guard). -/
def add_source_nodes (g : GraphSt) (c : Cluster) : Option (List OID) → CRes
  | none => (c, some .typeError)
  | some l => foldStop (fun c o => add_source_node g c (some o)) c l

/-- The inner loop of `Cluster._is_neighbor_of_cluster`: is some element
of the list contained in the cluster? -/
def anyInCluster (g : GraphSt) (c : Cluster) : List OID → Except PyError Bool
  | [] => .ok false
  | nb :: t =>
    match containsNode g c (some nb) with
    | .error e => .error e
    | .ok true => .ok true
    | .ok false => anyInCluster g c t

/-- `Cluster._is_neighbor_of_cluster`. -/
def isNbrOfCluster (g : GraphSt) (c : Cluster) (o : OID) : Except PyError Bool :=
  match containsNode g c (some o) with
  | .error e => .error e
  | .ok true => .ok false
  | .ok false => anyInCluster g c (getND g o).nbrs

/-- Body of the neighborhood-maintenance loop in
`Cluster._remove_node_internal`. -/
def removeNbrCheck (g : GraphSt) (c : Cluster) (nb : OID) : CRes :=
  match isNbrOfCluster g c nb with
  | .error e => (c, some e)
  | .ok true => (c, none)
  | .ok false =>
    if (dget (getND g nb).index c.nbrs).isSome then
      ({ c with nbrs := ddel (getND g nb).index c.nbrs }, none)
    else (c, none)

/-- `Cluster._remove_node_internal`. -/
def removeNodeInternal (g : GraphSt) (c : Cluster) (o : OID) : CRes :=
  let nd := getND g o
  let c1 : Cluster :=
    { c with
      nodes := ddel nd.index c.nodes
      listeners := c.listeners.erase o
      degree := c.degree - nd.deg }
  match foldStop (removeNbrCheck g) c1 nd.nbrs with
  | (c2, some e) => (c2, some e)
  | (c2, none) =>
    match isNbrOfCluster g c2 o with
    | .error e => (c2, some e)
    | .ok true => addNeighborCandidate g c2 o
    | .ok false => (c2, none)

/-- `Cluster.remove_node`. -/
def remove_node (g : GraphSt) (c : Cluster) : Option OID → CRes
  | none => (c, none)
  | some o =>
    match containsNode g c (some o) with
    | .error e => (c, some e)
    | .ok false => (c, none)
    | .ok true =>
      match isSourceNode g c (some o) with
      | .error e => (c, some e)
      | .ok true => (c, none)
      | .ok false => removeNodeInternal g c o

/-- `Cluster.remove_source_node`. -/
def remove_source_node (g : GraphSt) (c : Cluster) : Option OID → CRes
  | none => (c, none)
  | some o =>
    match containsNode g c (some o) with
    | .error e => (c, some e)
    | .ok false => (c, none)
    | .ok true =>
      match isSourceNode g c (some o) with
      | .error e => (c, some e)
      | .ok false => (c, none)
      | .ok true =>
        removeNodeInternal g { c with srcs := ddel (getND g o).index c.srcs } o

/-- `Cluster.remove_nodes` (has the `None` guard). -/
def remove_nodes (g : GraphSt) (c : Cluster) : Option (List OID) → CRes
  | none => (c, none)
  | some l => foldStop (fun c o => remove_node g c (some o)) c l

/-- `Cluster.remove_source_nodes` (has the `None` guard). -/
def remove_source_nodes (g : GraphSt) (c : Cluster) : Option (List OID) → CRes
  | none => (c, none)
  | some l => foldStop (fun c o => remove_source_node g c (some o)) c l

/-- The graph-side effect of discovering a new neighbor `n` of node `m`:
`m.neighbors` grows by `n` and `m.degree` grows by one. -/
def graphAddNbr (g : GraphSt) (m n : OID) : GraphSt :=
  dput m { getND g m with nbrs := (getND g m).nbrs ++ [n], deg := (getND g m).deg + 1 } g

/-- A `NeighborAddedEvent` on node `m` with new neighbor `n`: the graph
is updated first, then `Cluster._node_neighbor_added_handler` runs iff
the cluster's listener is attached to `m`. -/
def neighborAdded (g : GraphSt) (c : Cluster) (m n : OID) : GraphSt × CRes :=
  let g' := graphAddNbr g m n
  (g',
    if m ∈ c.listeners then
      addNeighborCandidate g' { c with degree := c.degree + 1 } n
    else (c, none))

/-- `ConnectivityGainDescriptor` (definitions/connectivity.py): the node
the descriptor was computed for, the decision, and the two pieces of
ranking metadata. -/
structure ConnectivityGainDescriptor where
  node : OID
  result : Bool
  weighting_coefficient : ℚ
  coefficient_multiplier : ℚ
deriving DecidableEq, Repr

/-- `ConnectivityGainDescriptor.get_rank`. -/
def get_rank (d : ConnectivityGainDescriptor) : ℚ :=
  if d.coefficient_multiplier = 0 then 0
  else d.weighting_coefficient / d.coefficient_multiplier

/-- `ConnectivityClusterDefinition`: the two policy parameters. -/
structure ConnectivityClusterDefinition where
  weighting_coefficient : ℚ
  threshold_modifier : ℚ
deriving DecidableEq, Repr

/-- The quality-accumulation loop shared by `gain_of_inclusion` and
`gain_of_exclusion`: add the weighting coefficient for every neighbor
contained in the cluster. -/
def qualityLoop (g : GraphSt) (c : Cluster) (w : ℚ) : List OID → ℚ → Except PyError ℚ
  | [], q => .ok q
  | nb :: t, q =>
    match containsNode g c (some nb) with
    | .error e => .error e
    | .ok true => qualityLoop g c w t (q + w)
    | .ok false => qualityLoop g c w t q

/-- The threshold shared by `gain_of_inclusion` and `gain_of_exclusion`:
`threshold_modifier * min(max(cluster_size - 2, 0), node_degree,
cluster_degree / cluster_size)`. -/
def gainThreshold (cd : ConnectivityClusterDefinition) (size : Nat) (cdeg : Int)
    (ndeg : Nat) : ℚ :=
  cd.threshold_modifier *
    min (min (max ((size : ℚ) - 2) 0) (ndeg : ℚ)) ((cdeg : ℚ) / (size : ℚ))

/-- `ConnectivityGainDescriptor(...)` construction.  In the source,
`ConnectivityGainDescriptor.__init__` (definitions/connectivity.py)
forwards only `(node, result)` to `GainDescriptor.__init__`
(definitions/util.py), whose third parameter `weighting_coefficient`
has no default value, so every construction of a
`ConnectivityGainDescriptor` raises a `TypeError` before any field is
assigned.  The intended field values are kept as arguments so the call
sites mirror the constructor calls in the source. -/
def mkConnectivityGainDescriptor (_node : OID) (_result : Bool)
    (_wc _mult : ℚ) : Except PyError ConnectivityGainDescriptor :=
  .error .typeError

/-- `ConnectivityClusterDefinition.gain_of_inclusion`: accumulate the
quality over the node's neighbors (propagating any identity-conflict
error raised there), branch on `quality_difference > 0`, compute the
threshold, then construct the result descriptor — which raises
`TypeError` (see `mkConnectivityGainDescriptor`), so every completing
call errors instead of returning a descriptor. -/
def gain_of_inclusion (g : GraphSt) (cd : ConnectivityClusterDefinition)
    (o : OID) (c : Cluster) : Except PyError ConnectivityGainDescriptor :=
  match qualityLoop g c cd.weighting_coefficient (getND g o).nbrs 0 with
  | .error e => .error e
  | .ok q =>
    if 0 < q then
      let threshold := gainThreshold cd c.nodes.length c.degree (getND g o).deg
      mkConnectivityGainDescriptor o (decide (threshold ≤ q))
        cd.weighting_coefficient (threshold / q)
    else mkConnectivityGainDescriptor o false cd.weighting_coefficient 0

/-- `ConnectivityClusterDefinition.gain_of_exclusion`: same structure as
`gain_of_inclusion` with the opposite decision (`quality < threshold`,
`True` in the zero-quality branch); the descriptor construction raises
`TypeError` here as well. -/
def gain_of_exclusion (g : GraphSt) (cd : ConnectivityClusterDefinition)
    (o : OID) (c : Cluster) : Except PyError ConnectivityGainDescriptor :=
  match qualityLoop g c cd.weighting_coefficient (getND g o).nbrs 0 with
  | .error e => .error e
  | .ok q =>
    if 0 < q then
      let threshold := gainThreshold cd c.nodes.length c.degree (getND g o).deg
      mkConnectivityGainDescriptor o (decide (q < threshold))
        cd.weighting_coefficient (threshold / q)
    else mkConnectivityGainDescriptor o true cd.weighting_coefficient 0

/-- The minimum-multiplier search loop of
`ConnectivityClusterDefinition.adjust_definition_for_next_hierarchy_level`. -/
def fmmStep (acc : Option ℚ) (d : ConnectivityGainDescriptor) : Option ℚ :=
  if (1 : ℚ) < d.coefficient_multiplier then
    match acc with
    | none => some d.coefficient_multiplier
    | some m => if d.coefficient_multiplier < m then some d.coefficient_multiplier else acc
  else acc

def findMinMultiplier (ds : List ConnectivityGainDescriptor) : Option ℚ :=
  ds.foldl fmmStep none

/-- `ConnectivityClusterDefinition.adjust_definition_for_next_hierarchy_level`. -/
def adjust_definition_for_next_hierarchy_level (cd : ConnectivityClusterDefinition) :
    Option (List ConnectivityGainDescriptor) → ConnectivityClusterDefinition × Bool
  | none => (cd, false)
  | some ds =>
    if ds.length = 0 then (cd, false)
    else
      match findMinMultiplier ds with
      | none => (cd, false)
      | some m =>
        ({ cd with weighting_coefficient := cd.weighting_coefficient * max m (21 / 20) }, true)

/-- `StepDescriptor`: the four identity-keyed buckets of gain
descriptors. -/
structure StepDescriptor where
  added : List (Int × ConnectivityGainDescriptor)
  notAdded : List (Int × ConnectivityGainDescriptor)
  removed : List (Int × ConnectivityGainDescriptor)
  notRemoved : List (Int × ConnectivityGainDescriptor)
deriving DecidableEq, Repr

/-- `StepDescriptor()`. -/
def emptyStep : StepDescriptor := ⟨[], [], [], []⟩

/-- `StepDescriptor.is_deadlock`: equal bucket sizes and every added key
present among the removed keys. -/
def is_deadlock (sd : StepDescriptor) : Bool :=
  if sd.added.length ≠ sd.removed.length then false
  else sd.added.all fun p => (dget p.1 sd.removed).isSome

/-- `StepDescriptor.is_equivalent_to`: bucket sizes of all four buckets
must agree and the added/removed key sets must coincide; the contents of
the not-added/not-removed buckets are not compared. -/
def is_equivalent_to (sd : StepDescriptor) : Option StepDescriptor → Bool
  | none => false
  | some other =>
    if sd.added.length ≠ other.added.length ∨
       sd.removed.length ≠ other.removed.length ∨
       sd.notAdded.length ≠ other.notAdded.length ∨
       sd.notRemoved.length ≠ other.notRemoved.length then false
    else
      (sd.added.all fun p => (dget p.1 other.added).isSome) &&
      (sd.removed.all fun p => (dget p.1 other.removed).isSome)

/-- `StepDescriptor.record_expansion_result`. -/
def record_expansion_result (g : GraphSt) (sd : StepDescriptor)
    (ds : List ConnectivityGainDescriptor) : StepDescriptor :=
  ds.foldl
    (fun sd d =>
      if d.result then { sd with added := dput (getND g d.node).index d sd.added }
      else { sd with notAdded := dput (getND g d.node).index d sd.notAdded })
    sd

/-- `StepDescriptor.record_reduction_result`. -/
def record_reduction_result (g : GraphSt) (sd : StepDescriptor)
    (ds : List ConnectivityGainDescriptor) : StepDescriptor :=
  ds.foldl
    (fun sd d =>
      if d.result then { sd with removed := dput (getND g d.node).index d sd.removed }
      else { sd with notRemoved := dput (getND g d.node).index d sd.notRemoved })
    sd

/-- `StepDescriptor.added_nodes`. -/
def added_nodes (sd : StepDescriptor) : List OID :=
  sd.added.map fun p => p.2.node

/-- `StepDescriptor.removed_nodes`. -/
def removed_nodes (sd : StepDescriptor) : List OID :=
  sd.removed.map fun p => p.2.node

/-- `StepDescriptor.get_gain_descriptor_for_node`: fixed lookup
precedence not-removed, not-added, added, removed. -/
def get_gain_descriptor_for_node (g : GraphSt) (sd : StepDescriptor) :
    Option OID → Option ConnectivityGainDescriptor
  | none => none
  | some o =>
    match dget (getND g o).index sd.notRemoved with
    | some d => some d
    | none =>
      match dget (getND g o).index sd.notAdded with
      | some d => some d
      | none =>
        match dget (getND g o).index sd.added with
        | some d => some d
        | none =>
          match dget (getND g o).index sd.removed with
          | some d => some d
          | none => none

/-- `StepHistory.last_step`: `self._history[-1]`, which raises
`IndexError` on an empty list (there is no `None` result; the
`step_descriptor is None` check in `ranking.get_node_rank` is therefore
unreachable). -/
def last_step (h : List StepDescriptor) : Except PyError StepDescriptor :=
  match h.getLast? with
  | some sd => .ok sd
  | none => .error .indexError

/-- Scan of `StepHistory.find_loop`: the first index in
`range(max(len - 1 - w, 0), len - 1)` whose descriptor is equivalent to
the last one, returning the suffix from there. -/
def findLoopScan (h : List StepDescriptor) (last : StepDescriptor) :
    List Nat → Option (List StepDescriptor)
  | [] => none
  | i :: t =>
    match h.get? i with
    | some sd => if is_equivalent_to last (some sd) then some (h.drop i) else findLoopScan h last t
    | none => findLoopScan h last t

/-- `StepHistory.find_loop` (the history list plus the
`max_sequence_length` window `w`). -/
def find_loop (h : List StepDescriptor) (w : Nat) : Option (List StepDescriptor) :=
  if h.length = 0 then none
  else
    match h.getLast? with
    | none => none
    | some last =>
      if is_deadlock last then some [last]
      else
        let lo := h.length - 1 - w
        findLoopScan h last (List.range' lo (h.length - 1 - lo))

/-- `StepHistoryRankProvider.get_node_rank`.  The provider's
`_step_history` reference may be `None` (−3); an empty history makes
`last_step` raise `IndexError`; a node without a descriptor in the last
step gets −1, otherwise the descriptor's rank. -/
def get_node_rank (g : GraphSt) (sh : Option (List StepDescriptor)) (n : Option OID) :
    Except PyError ℚ :=
  match sh, n with
  | none, _ => .ok (-3)
  | some _, none => .ok (-3)
  | some h, some o =>
    match last_step h with
    | .error e => .error e
    | .ok sd =>
      match get_gain_descriptor_for_node g sd (some o) with
      | some d => .ok (get_rank d)
      | none => .ok (-1)

/-- The gain-evaluation list comprehension of
`LocalClusterEngine._expand_cluster`. -/
def gainListInclusion (g : GraphSt) (cd : ConnectivityClusterDefinition) (c : Cluster) :
    List OID → Except PyError (List ConnectivityGainDescriptor)
  | [] => .ok []
  | o :: t =>
    match gain_of_inclusion g cd o c with
    | .error e => .error e
    | .ok d =>
      match gainListInclusion g cd c t with
      | .error e => .error e
      | .ok ds => .ok (d :: ds)

/-- `LocalClusterEngine._expand_cluster`: evaluate the inclusion gain of
every current neighborhood node against the unmodified cluster, record
the results in the step descriptor, then add the descriptor's (cumulative)
added nodes to the cluster. -/
def expand_cluster (g : GraphSt) (cd : ConnectivityClusterDefinition)
    (c : Cluster) (sd : StepDescriptor) : (Cluster × StepDescriptor) × Option PyError :=
  match gainListInclusion g cd c (dvals c.nbrs) with
  | .error e => ((c, sd), some e)
  | .ok ds =>
    let sd' := record_expansion_result g sd ds
    match add_nodes g c (some (added_nodes sd')) with
    | (c', e) => ((c', sd'), e)

/-- The expansion inner loop of `MultiStepLocalClusterEngine.execute_on`:
`for _ in range(count): self._expand_cluster(sd); if
sd.number_of_added_nodes == 0: break`, instrumented with the number of
expansion phases actually executed. -/
def expansionSteps (g : GraphSt) (cd : ConnectivityClusterDefinition) :
    Nat → Cluster → StepDescriptor → (Cluster × StepDescriptor × Nat) × Option PyError
  | 0, c, sd => ((c, sd, 0), none)
  | k + 1, c, sd =>
    match expand_cluster g cd c sd with
    | ((c', sd'), some e) => ((c', sd', 1), some e)
    | ((c', sd'), none) =>
      if sd'.added.length = 0 then ((c', sd', 1), none)
      else
        match expansionSteps g cd k c' sd' with
        | ((c'', sd'', n), e) => ((c'', sd'', n + 1), e)

/-- Sum of the current degrees of the values of an association list
(`sum(node.degree for node in d.values())`). -/
def sumDeg (g : GraphSt) (l : List (Int × OID)) : Int :=
  (l.map fun p => ((getND g p.2).deg : Int)).sum

/-- Every neighbor reference in the graph world refers to an existing
node object (the graph collaborator hands out real `Node` objects). -/
def GraphClosed (g : GraphSt) : Prop :=
  ∀ p ∈ g, ∀ nb ∈ p.2.nbrs, nb ∈ dkeys g

/-- The internal-consistency invariant of a `Cluster` in graph world `g`:
the three dictionaries have no duplicate keys and store each node object
under its own index, the boundary is disjoint from the member set, every
source node is a member, the aggregate degree is the sum of the member
degrees, and the event listener is attached to exactly the members. -/
structure ClusterInv (g : GraphSt) (c : Cluster) : Prop where
  nodesNodup : (dkeys c.nodes).Nodup
  srcsNodup : (dkeys c.srcs).Nodup
  nbrsNodup : (dkeys c.nbrs).Nodup
  nodesCoh : ∀ p ∈ c.nodes, (getND g p.2).index = p.1 ∧ p.2 ∈ dkeys g
  srcsCoh : ∀ p ∈ c.srcs, (getND g p.2).index = p.1 ∧ p.2 ∈ dkeys g
  nbrsCoh : ∀ p ∈ c.nbrs, (getND g p.2).index = p.1 ∧ p.2 ∈ dkeys g
  disj : ∀ k ∈ dkeys c.nbrs, k ∉ dkeys c.nodes
  srcsSub : ∀ p ∈ c.srcs, dget p.1 c.nodes = some p.2
  degEq : c.degree = sumDeg g c.nodes
  lisNodup : c.listeners.Nodup
  lis : ∀ o : OID, o ∈ c.listeners ↔ o ∈ dvals c.nodes

/-- One public operation of the `Cluster` API completing normally (plus
the neighbor-growth notification).  The graph world may only change
through the notification; node arguments must be real node objects. -/
inductive ClusterStep : GraphSt × Cluster → GraphSt × Cluster → Prop where
  | addSourceNode (g : GraphSt) (c c' : Cluster) (n : Option OID)
      (hn : ∀ o, n = some o → o ∈ dkeys g)
      (h : add_source_node g c n = (c', none)) : ClusterStep (g, c) (g, c')
  | addNode (g : GraphSt) (c c' : Cluster) (n : Option OID)
      (hn : ∀ o, n = some o → o ∈ dkeys g)
      (h : add_node g c n = (c', none)) : ClusterStep (g, c) (g, c')
  | removeSourceNode (g : GraphSt) (c c' : Cluster) (n : Option OID)
      (h : remove_source_node g c n = (c', none)) : ClusterStep (g, c) (g, c')
  | removeNode (g : GraphSt) (c c' : Cluster) (n : Option OID)
      (h : remove_node g c n = (c', none)) : ClusterStep (g, c) (g, c')
  | addSourceNodes (g : GraphSt) (c c' : Cluster) (nl : Option (List OID))
      (hl : ∀ o ∈ nl.getD [], o ∈ dkeys g)
      (h : add_source_nodes g c nl = (c', none)) : ClusterStep (g, c) (g, c')
  | addNodes (g : GraphSt) (c c' : Cluster) (nl : Option (List OID))
      (hl : ∀ o ∈ nl.getD [], o ∈ dkeys g)
      (h : add_nodes g c nl = (c', none)) : ClusterStep (g, c) (g, c')
  | removeSourceNodes (g : GraphSt) (c c' : Cluster) (nl : Option (List OID))
      (h : remove_source_nodes g c nl = (c', none)) : ClusterStep (g, c) (g, c')
  | removeNodes (g : GraphSt) (c c' : Cluster) (nl : Option (List OID))
      (h : remove_nodes g c nl = (c', none)) : ClusterStep (g, c) (g, c')
  | nbrAdded (g g' : GraphSt) (c c' : Cluster) (m n : OID)
      (hm : m ∈ dkeys g) (hn : n ∈ dkeys g)
      (h : neighborAdded g c m n = (g', (c', none))) : ClusterStep (g, c) (g', c')

/-- A cluster state (with its graph world) reachable from a fresh
`Cluster()` by a sequence of normally-completing public operations. -/
def ClusterReachable (g0 : GraphSt) (s : GraphSt × Cluster) : Prop :=
  Relation.ReflTransGen ClusterStep (g0, emptyCluster) s

/-- A two-node graph world for concrete witnesses: nodes 1 and 2 joined
by an edge. -/
def gW1 : GraphSt := [(1, ⟨1, 1, [2]⟩), (2, ⟨2, 1, [1]⟩)]

/-- The cluster obtained from `Cluster()` by `add_source_node(node 1)`
in `gW1`. -/
def cW1 : Cluster := ⟨[(1, 1)], [(1, 1)], [(2, 2)], 1, [1]⟩

/-- The graph world of the C9 counterexample: node object 1 (index 1)
with neighbor object 10 (index 5), and a second, distinct node object 11
that also claims index 5. -/
def g9 : GraphSt := [(1, ⟨1, 1, [10]⟩), (10, ⟨5, 1, [1]⟩), (11, ⟨5, 0, []⟩)]

/-- The cluster reached from `Cluster()` by `add_node(node 1)` in `g9`:
object 10 is now tracked in the boundary under index 5. -/
def c9base : Cluster := (add_node g9 emptyCluster (some 1)).1

/-- The list of gain descriptors carried by an optional Python list
(`None` ↦ no descriptors). -/
def descOptList : Option (List ConnectivityGainDescriptor) → List ConnectivityGainDescriptor
  | none => []
  | some l => l

/-- The number of the node's neighbors (with multiplicity) that are
members of the cluster: `|neighbors(node) ∩ cluster.members|`. -/
def memberNeighborCount (g : GraphSt) (c : Cluster) (o : OID) : Nat :=
  (getND g o).nbrs.countP fun nb => dget (getND g nb).index c.nodes == some nb

/-- The quality difference both gain methods compute:
`weighting_coefficient × |neighbors(node) ∩ cluster.members|`. -/
def gainQuality (g : GraphSt) (cd : ConnectivityClusterDefinition) (c : Cluster)
    (o : OID) : ℚ :=
  cd.weighting_coefficient * (memberNeighborCount g c o : ℚ)

/-- The C5 failing-input graph: a 5-clique on node objects 1–5 (indices
equal object ids), a node 6 attached to 2 with two pendant neighbors 7
and 8. -/
def g5 : GraphSt := [
  (1, ⟨1, 4, [2, 3, 4, 5]⟩),
  (2, ⟨2, 5, [1, 3, 4, 5, 6]⟩),
  (3, ⟨3, 4, [1, 2, 4, 5]⟩),
  (4, ⟨4, 4, [1, 2, 3, 5]⟩),
  (5, ⟨5, 4, [1, 2, 3, 4]⟩),
  (6, ⟨6, 3, [2, 7, 8]⟩),
  (7, ⟨7, 1, [6]⟩),
  (8, ⟨8, 1, [6]⟩)]

/-- The default connectivity definition
(`weighting_coefficient = 2`, `threshold_modifier = 0.85`). -/
def cd5 : ConnectivityClusterDefinition := ⟨2, 17 / 20⟩

/-- The cluster seeded with source node 1 in `g5`. -/
def c5start : Cluster := (add_source_node g5 emptyCluster (some 1)).1

/-- The gain descriptor used in the C3 concrete step descriptors. -/
def dC3 : ConnectivityGainDescriptor := ⟨1, true, 2, 0⟩

/-- Last step of the C3 counterexample history: added `{1}`,
removed `{2}`, empty not-added bucket. -/
def sdA3 : StepDescriptor := ⟨[(1, dC3)], [], [(2, dC3)], []⟩

/-- Earlier step of the C3 counterexample history: the same added and
removed identity sets, but one entry in the not-added bucket. -/
def sdB3 : StepDescriptor := ⟨[(1, dC3)], [(3, dC3)], [(2, dC3)], []⟩

/-- A step descriptor whose node 1 was added during expansion and
re-evaluated (kept) during reduction of the same step, with different
metadata in the two buckets. -/
def sdC10 : StepDescriptor :=
  ⟨[(1, ⟨1, true, 2, 1⟩)], [], [], [(1, ⟨1, false, 3, 1⟩)]⟩

/-! ## Theorems -/

@[simp] theorem dkeys_nil {κ β : Type} : dkeys ([] : List (κ × β)) = [] := rfl

@[simp] theorem dkeys_cons {κ β : Type} {p : κ × β} {t : List (κ × β)} :
    dkeys (p :: t) = p.1 :: dkeys t := rfl

@[simp] theorem dkeys_append {κ β : Type} {l₁ l₂ : List (κ × β)} :
    dkeys (l₁ ++ l₂) = dkeys l₁ ++ dkeys l₂ := List.map_append _ _ _

@[simp] theorem dvals_nil {κ β : Type} : dvals ([] : List (κ × β)) = [] := rfl

@[simp] theorem dvals_cons {κ β : Type} {p : κ × β} {t : List (κ × β)} :
    dvals (p :: t) = p.2 :: dvals t := rfl

@[simp] theorem dvals_append {κ β : Type} {l₁ l₂ : List (κ × β)} :
    dvals (l₁ ++ l₂) = dvals l₁ ++ dvals l₂ := List.map_append _ _ _

theorem dget_eq_none_iff {κ β : Type} [DecidableEq κ] {k : κ} {l : List (κ × β)} :
    dget k l = none ↔ k ∉ dkeys l := by
  induction l with
  | nil => simp [dget]
  | cons p t ih =>
    by_cases h : p.1 = k
    · subst h
      simp [dget]
    · rw [dget, if_neg h, dkeys_cons]
      simp only [List.mem_cons, not_or, ih]
      constructor
      · intro hk
        exact ⟨fun he => h he.symm, hk⟩
      · intro hk
        exact hk.2

theorem dget_mem {κ β : Type} [DecidableEq κ] {k : κ} {v : β} {l : List (κ × β)}
    (h : dget k l = some v) : (k, v) ∈ l := by
  induction l with
  | nil => simp [dget] at h
  | cons p t ih =>
    by_cases hp : p.1 = k
    · rw [dget, if_pos hp] at h
      have : p = (k, v) := by
        cases p
        cases h
        cases hp
        rfl
      exact this ▸ List.mem_cons_self _ _
    · rw [dget, if_neg hp] at h
      exact List.mem_cons_of_mem _ (ih h)

theorem mem_dkeys_of_dget {κ β : Type} [DecidableEq κ] {k : κ} {v : β} {l : List (κ × β)}
    (h : dget k l = some v) : k ∈ dkeys l :=
  List.mem_map_of_mem Prod.fst (dget_mem h)

theorem eq_of_fst_eq {κ β : Type} {l : List (κ × β)} (hn : (dkeys l).Nodup)
    {p q : κ × β} (hp : p ∈ l) (hq : q ∈ l) (h : p.1 = q.1) : p = q := by
  induction l with
  | nil => cases hp
  | cons a t ih =>
    rw [dkeys_cons, List.nodup_cons] at hn
    rcases List.mem_cons.1 hp with hp | hp <;> rcases List.mem_cons.1 hq with hq | hq
    · rw [hp, hq]
    · exfalso
      apply hn.1
      have hm : q.1 ∈ dkeys t := List.mem_map_of_mem Prod.fst hq
      have he : a.1 = q.1 := by rw [← hp]; exact h
      rwa [he]
    · exfalso
      apply hn.1
      have hm : p.1 ∈ dkeys t := List.mem_map_of_mem Prod.fst hp
      have he : a.1 = p.1 := by rw [← hq]; exact h.symm
      rwa [he]
    · exact ih hn.2 hp hq

theorem dget_of_mem_nodup {κ β : Type} [DecidableEq κ] {l : List (κ × β)}
    (hn : (dkeys l).Nodup) {p : κ × β} (hp : p ∈ l) : dget p.1 l = some p.2 := by
  induction l with
  | nil => cases hp
  | cons a t ih =>
    rw [dkeys_cons, List.nodup_cons] at hn
    rcases List.mem_cons.1 hp with hp | hp
    · subst hp
      simp [dget]
    · have hne : a.1 ≠ p.1 := by
        intro he
        apply hn.1
        have hm : p.1 ∈ dkeys t := List.mem_map_of_mem Prod.fst hp
        rwa [← he] at hm
      rw [dget, if_neg hne]
      exact ih hn.2 hp

theorem dput_of_not_mem {κ β : Type} [DecidableEq κ] {k : κ} {v : β} {l : List (κ × β)}
    (h : k ∉ dkeys l) : dput k v l = l ++ [(k, v)] := by
  induction l with
  | nil => simp [dput]
  | cons p t ih =>
    rw [dkeys_cons, List.mem_cons, not_or] at h
    rw [dput, if_neg (fun he => h.1 he.symm), ih h.2, List.cons_append]

theorem mem_dput {κ β : Type} [DecidableEq κ] {k : κ} {v : β} {l : List (κ × β)}
    {p : κ × β} (h : p ∈ dput k v l) : p = (k, v) ∨ p ∈ l := by
  induction l with
  | nil =>
    rw [dput] at h
    simp at h
    exact Or.inl h
  | cons a t ih =>
    by_cases ha : a.1 = k
    · rw [dput, if_pos ha] at h
      rcases List.mem_cons.1 h with h | h
      · exact Or.inl h
      · exact Or.inr (List.mem_cons_of_mem _ h)
    · rw [dput, if_neg ha] at h
      rcases List.mem_cons.1 h with h | h
      · exact Or.inr (h ▸ List.mem_cons_self _ _)
      · rcases ih h with h | h
        · exact Or.inl h
        · exact Or.inr (List.mem_cons_of_mem _ h)

theorem mem_dkeys_dput {κ β : Type} [DecidableEq κ] {k k' : κ} {v : β} {l : List (κ × β)} :
    k' ∈ dkeys (dput k v l) ↔ k' = k ∨ k' ∈ dkeys l := by
  induction l with
  | nil => simp [dput]
  | cons a t ih =>
    by_cases ha : a.1 = k
    · subst ha
      rw [dput, if_pos rfl]
      simp
    · rw [dput, if_neg ha, dkeys_cons, dkeys_cons]
      simp only [List.mem_cons, ih]
      tauto

theorem nodup_dkeys_dput {κ β : Type} [DecidableEq κ] {k : κ} {v : β} {l : List (κ × β)}
    (hn : (dkeys l).Nodup) : (dkeys (dput k v l)).Nodup := by
  induction l with
  | nil => simp [dput]
  | cons a t ih =>
    rw [dkeys_cons, List.nodup_cons] at hn
    by_cases ha : a.1 = k
    · subst ha
      rw [dput, if_pos rfl, dkeys_cons, List.nodup_cons]
      exact hn
    · rw [dput, if_neg ha, dkeys_cons, List.nodup_cons]
      refine ⟨fun hm => ?_, ih hn.2⟩
      rcases mem_dkeys_dput.1 hm with he | hm
      · exact ha he
      · exact hn.1 hm

theorem dget_dput_self {κ β : Type} [DecidableEq κ] {k : κ} {v : β} {l : List (κ × β)} :
    dget k (dput k v l) = some v := by
  induction l with
  | nil => simp [dput, dget]
  | cons a t ih =>
    by_cases ha : a.1 = k
    · rw [dput, if_pos ha, dget, if_pos rfl]
    · rw [dput, if_neg ha, dget, if_neg ha]
      exact ih

theorem dget_dput_ne {κ β : Type} [DecidableEq κ] {k k' : κ} {v : β} {l : List (κ × β)}
    (h : k' ≠ k) : dget k' (dput k v l) = dget k' l := by
  induction l with
  | nil =>
    simp [dput, dget, Ne.symm h]
  | cons a t ih =>
    by_cases ha : a.1 = k
    · rw [dput, if_pos ha]
      show (if k = k' then some v else dget k' t) = dget k' (a :: t)
      rw [if_neg (fun he => h he.symm), dget, if_neg (fun he => h (ha ▸ he).symm)]
    · rw [dput, if_neg ha]
      show (if a.1 = k' then some a.2 else dget k' (dput k v t)) = dget k' (a :: t)
      rw [dget]
      by_cases ha' : a.1 = k'
      · rw [if_pos ha', if_pos ha']
      · rw [if_neg ha', if_neg ha']
        exact ih

theorem mem_ddel {κ β : Type} [DecidableEq κ] {k : κ} {l : List (κ × β)} {p : κ × β}
    (h : p ∈ ddel k l) : p ∈ l := by
  induction l with
  | nil => cases h
  | cons a t ih =>
    by_cases ha : a.1 = k
    · rw [ddel, if_pos ha] at h
      exact List.mem_cons_of_mem _ h
    · rw [ddel, if_neg ha] at h
      rcases List.mem_cons.1 h with h | h
      · exact h ▸ List.mem_cons_self _ _
      · exact List.mem_cons_of_mem _ (ih h)

theorem dkeys_ddel_subset {κ β : Type} [DecidableEq κ] {k k' : κ} {l : List (κ × β)}
    (h : k' ∈ dkeys (ddel k l)) : k' ∈ dkeys l := by
  rcases List.mem_map.1 h with ⟨p, hp, he⟩
  exact he ▸ List.mem_map_of_mem Prod.fst (mem_ddel hp)

theorem nodup_dkeys_ddel {κ β : Type} [DecidableEq κ] {k : κ} {l : List (κ × β)}
    (hn : (dkeys l).Nodup) : (dkeys (ddel k l)).Nodup := by
  induction l with
  | nil => simp [ddel]
  | cons a t ih =>
    rw [dkeys_cons, List.nodup_cons] at hn
    by_cases ha : a.1 = k
    · rw [ddel, if_pos ha]
      exact hn.2
    · rw [ddel, if_neg ha, dkeys_cons, List.nodup_cons]
      exact ⟨fun hm => hn.1 (dkeys_ddel_subset hm), ih hn.2⟩

theorem ddel_split {κ β : Type} [DecidableEq κ] {k : κ} {v : β} {l : List (κ × β)}
    (hn : (dkeys l).Nodup) (h : dget k l = some v) :
    ∃ l₁ l₂, l = l₁ ++ (k, v) :: l₂ ∧ ddel k l = l₁ ++ l₂ ∧ k ∉ dkeys l₁ := by
  induction l with
  | nil => simp [dget] at h
  | cons a t ih =>
    rw [dkeys_cons, List.nodup_cons] at hn
    by_cases ha : a.1 = k
    · rw [dget, if_pos ha] at h
      refine ⟨[], t, ?_, ?_, by simp⟩
      · cases a
        cases h
        cases ha
        simp
      · rw [ddel, if_pos ha]
        simp
    · rw [dget, if_neg ha] at h
      rcases ih hn.2 h with ⟨l₁, l₂, he, hd, hk⟩
      refine ⟨a :: l₁, l₂, by rw [List.cons_append, ← he], ?_, ?_⟩
      · rw [ddel, if_neg ha, List.cons_append, ← hd]
      · rw [dkeys_cons, List.mem_cons, not_or]
        exact ⟨fun hx => ha hx.symm, hk⟩

theorem not_mem_dkeys_ddel {κ β : Type} [DecidableEq κ] {k : κ} {l : List (κ × β)}
    (hn : (dkeys l).Nodup) : k ∉ dkeys (ddel k l) := by
  induction l with
  | nil => simp [ddel]
  | cons a t ih =>
    rw [dkeys_cons, List.nodup_cons] at hn
    by_cases ha : a.1 = k
    · rw [ddel, if_pos ha]
      rw [ha] at hn
      exact hn.1
    · rw [ddel, if_neg ha, dkeys_cons, List.mem_cons, not_or]
      exact ⟨fun he => ha he.symm, ih hn.2⟩

theorem dget_ddel_self {κ β : Type} [DecidableEq κ] {k : κ} {l : List (κ × β)}
    (hn : (dkeys l).Nodup) : dget k (ddel k l) = none :=
  dget_eq_none_iff.2 (not_mem_dkeys_ddel hn)

theorem dget_ddel_ne {κ β : Type} [DecidableEq κ] {k k' : κ} {l : List (κ × β)}
    (h : k' ≠ k) : dget k' (ddel k l) = dget k' l := by
  induction l with
  | nil => rfl
  | cons a t ih =>
    by_cases ha : a.1 = k
    · rw [ddel, if_pos ha, dget, if_neg (fun he => h ((ha ▸ he : k = k')).symm)]
    · rw [ddel, if_neg ha]
      show (if a.1 = k' then some a.2 else dget k' (ddel k t)) = dget k' (a :: t)
      rw [dget]
      by_cases ha' : a.1 = k'
      · rw [if_pos ha', if_pos ha']
      · rw [if_neg ha', if_neg ha']
        exact ih

theorem sumDeg_append {g : GraphSt} {l₁ l₂ : List (Int × OID)} :
    sumDeg g (l₁ ++ l₂) = sumDeg g l₁ + sumDeg g l₂ := by
  rw [sumDeg, List.map_append, List.sum_append]
  rfl

theorem sumDeg_dput {g : GraphSt} {k : Int} {o : OID} {l : List (Int × OID)}
    (h : k ∉ dkeys l) :
    sumDeg g (dput k o l) = sumDeg g l + ((getND g o).deg : Int) := by
  rw [dput_of_not_mem h, sumDeg_append]
  simp [sumDeg]

theorem sumDeg_ddel {g : GraphSt} {k : Int} {o : OID} {l : List (Int × OID)}
    (hn : (dkeys l).Nodup) (h : dget k l = some o) :
    sumDeg g (ddel k l) = sumDeg g l - ((getND g o).deg : Int) := by
  rcases ddel_split hn h with ⟨l₁, l₂, he, hd, _⟩
  rw [hd, he, sumDeg_append, sumDeg_append]
  simp [sumDeg]
  ring

theorem getND_closed {g : GraphSt} (hg : GraphClosed g) {o : OID} (ho : o ∈ dkeys g) :
    ∀ nb ∈ (getND g o).nbrs, nb ∈ dkeys g := by
  intro nb hnb
  match hd : dget o g with
  | some d =>
    have := hg (o, d) (dget_mem hd)
    rw [getND, hd] at hnb
    exact this nb hnb
  | none =>
    exact absurd ho (dget_eq_none_iff.1 hd)

theorem getND_graphAddNbr_self {g : GraphSt} {m n : OID} :
    getND (graphAddNbr g m n) m =
      { getND g m with nbrs := (getND g m).nbrs ++ [n], deg := (getND g m).deg + 1 } := by
  rw [graphAddNbr, getND, dget_dput_self, Option.getD_some]

theorem getND_graphAddNbr_ne {g : GraphSt} {m n o : OID} (h : o ≠ m) :
    getND (graphAddNbr g m n) o = getND g o := by
  rw [graphAddNbr, getND, dget_dput_ne h, getND]

theorem getND_index_graphAddNbr {g : GraphSt} {m n o : OID} :
    (getND (graphAddNbr g m n) o).index = (getND g o).index := by
  by_cases h : o = m
  · rw [h, getND_graphAddNbr_self]
  · rw [getND_graphAddNbr_ne h]

theorem dkeys_dput_of_mem {κ β : Type} [DecidableEq κ] {k : κ} {v : β} {l : List (κ × β)}
    (h : k ∈ dkeys l) : dkeys (dput k v l) = dkeys l := by
  induction l with
  | nil => cases h
  | cons p t ih =>
    by_cases hp : p.1 = k
    · rw [dput, if_pos hp, dkeys_cons, dkeys_cons, hp]
    · rw [dkeys_cons, List.mem_cons] at h
      rcases h with h | h
      · exact absurd h.symm hp
      · rw [dput, if_neg hp, dkeys_cons, dkeys_cons, ih h]

theorem dkeys_graphAddNbr {g : GraphSt} {m n : OID} (hm : m ∈ dkeys g) :
    dkeys (graphAddNbr g m n) = dkeys g :=
  dkeys_dput_of_mem hm

theorem graphClosed_addNbr {g : GraphSt} {m n : OID} (hg : GraphClosed g)
    (hm : m ∈ dkeys g) (hn : n ∈ dkeys g) : GraphClosed (graphAddNbr g m n) := by
  intro p hp nb hnb
  rw [dkeys_graphAddNbr hm]
  rcases mem_dput hp with hp | hp
  · rw [hp] at hnb
    simp only [List.mem_append, List.mem_singleton] at hnb
    rcases hnb with hnb | hnb
    · exact getND_closed hg hm nb hnb
    · exact hnb ▸ hn
  · exact hg p hp nb hnb

theorem sumDeg_graphAddNbr_not_mem {g : GraphSt} {m n : OID} {l : List (Int × OID)}
    (h : m ∉ dvals l) : sumDeg (graphAddNbr g m n) l = sumDeg g l := by
  induction l with
  | nil => rfl
  | cons p t ih =>
    rw [dvals_cons, List.mem_cons, not_or] at h
    rw [sumDeg, List.map_cons, List.sum_cons, sumDeg, List.map_cons, List.sum_cons]
    rw [getND_graphAddNbr_ne (fun he => h.1 he.symm)]
    have := ih h.2
    rw [sumDeg, sumDeg] at this
    rw [this]

theorem sumDeg_graphAddNbr_mem {g : GraphSt} {m n : OID} {l : List (Int × OID)}
    (hnd : (dvals l).Nodup) (h : m ∈ dvals l) :
    sumDeg (graphAddNbr g m n) l = sumDeg g l + 1 := by
  induction l with
  | nil => cases h
  | cons p t ih =>
    rw [dvals_cons, List.nodup_cons] at hnd
    rw [sumDeg, List.map_cons, List.sum_cons, sumDeg, List.map_cons, List.sum_cons]
    rcases List.mem_cons.1 h with he | hm
    · rw [← he, getND_graphAddNbr_self]
      have ht : sumDeg (graphAddNbr g m n) t = sumDeg g t :=
        sumDeg_graphAddNbr_not_mem (he ▸ hnd.1)
      rw [sumDeg, sumDeg] at ht
      rw [ht]
      push_cast
      ring
    · rw [getND_graphAddNbr_ne (fun he => hnd.1 (by rwa [← he] at hm))]
      have ht := ih hnd.2 hm
      rw [sumDeg, sumDeg] at ht
      rw [ht]
      ring

theorem ClusterInv.valsNodup {g : GraphSt} {c : Cluster} (h : ClusterInv g c) :
    (dvals c.nodes).Nodup := by
  have hpairs : c.nodes.Nodup := h.nodesNodup.of_map
  rw [dvals]
  refine List.Nodup.map_on ?_ hpairs
  intro p hp q hq he
  exact eq_of_fst_eq h.nodesNodup hp hq
    (by rw [← (h.nodesCoh p hp).1, ← (h.nodesCoh q hq).1, he])

theorem emptyCluster_inv (g : GraphSt) : ClusterInv g emptyCluster := by
  constructor <;> simp [emptyCluster, sumDeg]

theorem checkExcept_true_iff {k : Int} {o : OID} {l : List (Int × OID)} :
    (match dget k l with
     | some o' => if o' = o then (Except.ok true : Except PyError Bool) else .error .identityConflict
     | none => .ok false) = .ok true ↔ dget k l = some o := by
  cases hd : dget k l with
  | none => simp
  | some o' =>
    by_cases he : o' = o
    · subst he
      simp
    · simp [he]

theorem checkExcept_false_iff {k : Int} {o : OID} {l : List (Int × OID)} :
    (match dget k l with
     | some o' => if o' = o then (Except.ok true : Except PyError Bool) else .error .identityConflict
     | none => .ok false) = .ok false ↔ dget k l = none := by
  cases hd : dget k l with
  | none => simp
  | some o' =>
    by_cases he : o' = o
    · subst he
      simp
    · simp [he]

theorem containsNode_true_iff {g : GraphSt} {c : Cluster} {o : OID} :
    containsNode g c (some o) = .ok true ↔ dget (getND g o).index c.nodes = some o :=
  checkExcept_true_iff

theorem containsNode_false_iff {g : GraphSt} {c : Cluster} {o : OID} :
    containsNode g c (some o) = .ok false ↔ dget (getND g o).index c.nodes = none :=
  checkExcept_false_iff

theorem isNeighbor_true_iff {g : GraphSt} {c : Cluster} {o : OID} :
    isNeighbor g c (some o) = .ok true ↔ dget (getND g o).index c.nbrs = some o :=
  checkExcept_true_iff

theorem isNeighbor_false_iff {g : GraphSt} {c : Cluster} {o : OID} :
    isNeighbor g c (some o) = .ok false ↔ dget (getND g o).index c.nbrs = none :=
  checkExcept_false_iff

theorem isSourceNode_true_iff {g : GraphSt} {c : Cluster} {o : OID} :
    isSourceNode g c (some o) = .ok true ↔ dget (getND g o).index c.srcs = some o :=
  checkExcept_true_iff

theorem isSourceNode_false_iff {g : GraphSt} {c : Cluster} {o : OID} :
    isSourceNode g c (some o) = .ok false ↔ dget (getND g o).index c.srcs = none :=
  checkExcept_false_iff

theorem anc_frame (g : GraphSt) (c : Cluster) (o : OID) :
    (addNeighborCandidate g c o).1.srcs = c.srcs ∧
    (addNeighborCandidate g c o).1.nodes = c.nodes ∧
    (addNeighborCandidate g c o).1.degree = c.degree ∧
    (addNeighborCandidate g c o).1.listeners = c.listeners := by
  unfold addNeighborCandidate
  split
  · exact ⟨rfl, rfl, rfl, rfl⟩
  · exact ⟨rfl, rfl, rfl, rfl⟩
  · split
    · exact ⟨rfl, rfl, rfl, rfl⟩
    · exact ⟨rfl, rfl, rfl, rfl⟩
    · exact ⟨rfl, rfl, rfl, rfl⟩

theorem anc_ok_nbrs {g : GraphSt} {c c' : Cluster} {o : OID}
    (h : addNeighborCandidate g c o = (c', none)) :
    c'.nbrs = c.nbrs ∨
    (c'.nbrs = dput (getND g o).index o c.nbrs ∧
     dget (getND g o).index c.nodes = none ∧ dget (getND g o).index c.nbrs = none) := by
  unfold addNeighborCandidate at h
  cases h1 : containsNode g c (some o) with
  | error e =>
    rw [h1] at h
    simp at h
  | ok b1 =>
    cases b1 with
    | true =>
      rw [h1] at h
      simp at h
      left
      rw [← h]
    | false =>
      rw [h1] at h
      cases h2 : isNeighbor g c (some o) with
      | error e =>
        rw [h2] at h
        simp at h
      | ok b2 =>
        cases b2 with
        | true =>
          rw [h2] at h
          simp at h
          left
          rw [← h]
        | false =>
          rw [h2] at h
          simp at h
          right
          refine ⟨by rw [← h], containsNode_false_iff.1 h1, isNeighbor_false_iff.1 h2⟩

theorem foldStop_frame {α γ : Type} (π : Cluster → γ) (f : Cluster → α → CRes)
    (hf : ∀ c a, π (f c a).1 = π c) :
    ∀ (l : List α) (c : Cluster), π (foldStop f c l).1 = π c := by
  intro l
  induction l with
  | nil => intro c; rfl
  | cons a t ih =>
    intro c
    rw [foldStop]
    cases hfa : f c a with
    | mk cn e =>
      cases e with
      | none =>
        have h1 := hf c a
        rw [hfa] at h1
        rw [ih cn, h1]
      | some e =>
        have h1 := hf c a
        rw [hfa] at h1
        exact h1

theorem foldStop_ok_ind {α : Type} (f : Cluster → α → CRes) (l : List α) (P : Cluster → Prop)
    (hf : ∀ c a, a ∈ l → P c → ∀ c', f c a = (c', none) → P c') :
    ∀ c c', P c → foldStop f c l = (c', none) → P c' := by
  induction l with
  | nil =>
    intro c c' hP h
    rw [foldStop] at h
    simp at h
    rwa [← h]
  | cons a t ih =>
    intro c c' hP h
    rw [foldStop] at h
    cases hfa : f c a with
    | mk cn e =>
      cases e with
      | none =>
        rw [hfa] at h
        exact ih (fun c a ha => hf c a (List.mem_cons_of_mem _ ha)) cn c'
          (hf c a (List.mem_cons_self _ _) hP cn hfa) h
      | some e =>
        rw [hfa] at h
        simp at h

theorem add_node_assemble {g : GraphSt} {c : Cluster} {o : OID}
    (hI : ClusterInv g c) (ho : o ∈ dkeys g)
    (hd : dget (getND g o).index c.nodes = none)
    (nb2 : List (Int × OID))
    (h5 : (dkeys nb2).Nodup)
    (h6 : ∀ p ∈ nb2, (getND g p.2).index = p.1 ∧ p.2 ∈ dkeys g)
    (h7 : ∀ k ∈ dkeys nb2, k ∈ dkeys c.nbrs ∨ k ∉ dkeys (dput (getND g o).index o c.nodes))
    (h8 : (getND g o).index ∉ dkeys nb2) :
    ClusterInv g
      { srcs := c.srcs, nodes := dput (getND g o).index o c.nodes, nbrs := nb2,
        degree := c.degree + ((getND g o).deg : Int), listeners := o :: c.listeners } := by
  have hdk : (getND g o).index ∉ dkeys c.nodes := dget_eq_none_iff.1 hd
  constructor
  · exact nodup_dkeys_dput hI.nodesNodup
  · exact hI.srcsNodup
  · exact h5
  · intro p hp
    rcases mem_dput hp with hp | hp
    · rw [hp]
      exact ⟨rfl, ho⟩
    · exact hI.nodesCoh p hp
  · exact hI.srcsCoh
  · exact h6
  · intro k hk
    rcases h7 k hk with h | h
    · intro hmem
      rcases mem_dkeys_dput.1 hmem with he | hmem
      · exact h8 (he ▸ hk)
      · exact hI.disj k h hmem
    · exact h
  · intro p hp
    have hne : p.1 ≠ (getND g o).index := by
      intro he
      rw [← he] at hd
      rw [hI.srcsSub p hp] at hd
      cases hd
    rw [dget_dput_ne hne]
    exact hI.srcsSub p hp
  · show c.degree + ((getND g o).deg : Int) = sumDeg g (dput (getND g o).index o c.nodes)
    rw [sumDeg_dput hdk, hI.degEq]
  · rw [List.nodup_cons]
    refine ⟨fun hm => ?_, hI.lisNodup⟩
    have hv : o ∈ dvals c.nodes := (hI.lis o).1 hm
    rcases List.mem_map.1 hv with ⟨p, hp, he⟩
    have := dget_of_mem_nodup hI.nodesNodup hp
    have hidx : p.1 = (getND g o).index := by
      rw [← (hI.nodesCoh p hp).1, he]
    rw [hidx] at this
    rw [this] at hd
    cases hd
  · intro o'
    show o' ∈ o :: c.listeners ↔ o' ∈ dvals (dput (getND g o).index o c.nodes)
    rw [dput_of_not_mem hdk, dvals_append, List.mem_append]
    simp only [List.mem_cons, dvals_cons, dvals_nil, List.mem_singleton]
    rw [hI.lis o']
    tauto

theorem add_node_ok {g : GraphSt} {c c' : Cluster} {o : OID}
    (hg : GraphClosed g) (hI : ClusterInv g c) (ho : o ∈ dkeys g)
    (h : add_node g c (some o) = (c', none)) :
    ClusterInv g c' ∧ dget (getND g o).index c'.nodes = some o := by
  cases hd : dget (getND g o).index c.nodes with
  | some oo =>
    by_cases he : oo = o
    · have hres : add_node g c (some o) = (c, none) := by
        simp [add_node, hd, he]
      rw [hres] at h
      simp at h
      subst h
      exact ⟨hI, by rw [hd, he]⟩
    · have hres : add_node g c (some o) = (c, some .identityConflict) := by
        simp [add_node, hd, he]
      rw [hres] at h
      simp at h
  | none =>
    have hnbg : ∀ nb ∈ (getND g o).nbrs, nb ∈ dkeys g := getND_closed hg ho
    cases hl : foldStop (addNeighborCandidate g)
        { c with
          nodes := dput (getND g o).index o c.nodes
          listeners := o :: c.listeners
          degree := c.degree + ((getND g o).deg : Int) } (getND g o).nbrs with
    | mk c2 e2 =>
      -- the loop state invariant
      have hP : e2 = none →
          c2.nodes = dput (getND g o).index o c.nodes ∧ c2.srcs = c.srcs ∧
          c2.degree = c.degree + ((getND g o).deg : Int) ∧ c2.listeners = o :: c.listeners ∧
          (dkeys c2.nbrs).Nodup ∧
          (∀ p ∈ c2.nbrs, (getND g p.2).index = p.1 ∧ p.2 ∈ dkeys g) ∧
          (∀ k ∈ dkeys c2.nbrs,
            k ∈ dkeys c.nbrs ∨ k ∉ dkeys (dput (getND g o).index o c.nodes)) := by
        intro he2
        subst he2
        refine foldStop_ok_ind (addNeighborCandidate g) (getND g o).nbrs
          (fun x =>
            x.nodes = dput (getND g o).index o c.nodes ∧ x.srcs = c.srcs ∧
            x.degree = c.degree + ((getND g o).deg : Int) ∧ x.listeners = o :: c.listeners ∧
            (dkeys x.nbrs).Nodup ∧
            (∀ p ∈ x.nbrs, (getND g p.2).index = p.1 ∧ p.2 ∈ dkeys g) ∧
            (∀ k ∈ dkeys x.nbrs,
              k ∈ dkeys c.nbrs ∨ k ∉ dkeys (dput (getND g o).index o c.nodes)))
          ?_ _ c2 ?_ hl
        · intro x nb hnb hPx x' hx'
          obtain ⟨hx1, hx2, hx3, hx4, hx5, hx6, hx7⟩ := hPx
          have hfr := anc_frame g x nb
          rw [hx'] at hfr
          refine ⟨hfr.2.1 ▸ hx1, hfr.1 ▸ hx2, hfr.2.2.1 ▸ hx3, hfr.2.2.2 ▸ hx4, ?_, ?_, ?_⟩
          · rcases anc_ok_nbrs hx' with hn | ⟨hn, _, _⟩
            · rw [hn]; exact hx5
            · rw [hn]; exact nodup_dkeys_dput hx5
          · rcases anc_ok_nbrs hx' with hn | ⟨hn, _, _⟩
            · rw [hn]; exact hx6
            · rw [hn]
              intro p hp
              rcases mem_dput hp with hp | hp
              · rw [hp]
                exact ⟨rfl, hnbg nb hnb⟩
              · exact hx6 p hp
          · rcases anc_ok_nbrs hx' with hn | ⟨hn, hn2, _⟩
            · rw [hn]; exact hx7
            · rw [hn]
              intro k hk
              rcases mem_dkeys_dput.1 hk with he | hk
              · right
                rw [he]
                rw [hx1] at hn2
                exact dget_eq_none_iff.1 hn2
              · exact hx7 k hk
        · exact ⟨rfl, rfl, rfl, rfl, hI.nbrsNodup, hI.nbrsCoh, fun k hk => Or.inl hk⟩
      -- now reduce add_node with the recorded loop result
      cases e2 with
      | some e =>
        have hres : add_node g c (some o) = (c2, some e) := by
          simp [add_node, hd, hl]
        rw [hres] at h
        simp at h
      | none =>
        obtain ⟨hP1, hP2, hP3, hP4, hP5, hP6, hP7⟩ := hP rfl
        cases hcl : dget (getND g o).index c2.nbrs with
        | some oo =>
          by_cases he : oo = o
          · have hres : add_node g c (some o) =
                ({ c2 with nbrs := ddel (getND g o).index c2.nbrs }, none) := by
              simp [add_node, hd, hl, hcl, he]
            rw [hres] at h
            simp at h
            have hc' : c' = { c2 with nbrs := ddel (getND g o).index c2.nbrs } := h.symm
            subst hc'
            constructor
            · have hasm := add_node_assemble hI ho hd (ddel (getND g o).index c2.nbrs)
                (nodup_dkeys_ddel hP5)
                (fun p hp => hP6 p (mem_ddel hp))
                (fun k hk => hP7 k (dkeys_ddel_subset hk))
                (not_mem_dkeys_ddel hP5)
              have hstate : ({ c2 with nbrs := ddel (getND g o).index c2.nbrs } : Cluster) =
                  { srcs := c.srcs, nodes := dput (getND g o).index o c.nodes,
                    nbrs := ddel (getND g o).index c2.nbrs,
                    degree := c.degree + ((getND g o).deg : Int),
                    listeners := o :: c.listeners } := by
                cases c2
                simp_all
              rw [hstate]
              exact hasm
            · show dget (getND g o).index
                ({ c2 with nbrs := ddel (getND g o).index c2.nbrs } : Cluster).nodes = some o
              rw [show ({ c2 with nbrs := ddel (getND g o).index c2.nbrs } : Cluster).nodes
                  = c2.nodes from rfl, hP1]
              exact dget_dput_self
          · have hres : add_node g c (some o) = (c2, some .identityConflict) := by
              simp [add_node, hd, hl, hcl, he]
            rw [hres] at h
            simp at h
        | none =>
          have hres : add_node g c (some o) = (c2, none) := by
            simp [add_node, hd, hl, hcl]
          rw [hres] at h
          simp at h
          subst h
          constructor
          · have hidx : (getND g o).index ∉ dkeys c2.nbrs := dget_eq_none_iff.1 hcl
            have hasm := add_node_assemble hI ho hd c2.nbrs hP5 hP6 hP7 hidx
            have hstate : c2 =
                { srcs := c.srcs, nodes := dput (getND g o).index o c.nodes,
                  nbrs := c2.nbrs, degree := c.degree + ((getND g o).deg : Int),
                  listeners := o :: c.listeners } := by
              cases c2
              simp_all
            rw [hstate]
            exact hasm
          · rw [hP1]
            exact dget_dput_self

theorem anc_inv {g : GraphSt} {c c' : Cluster} {o : OID}
    (hI : ClusterInv g c) (ho : o ∈ dkeys g)
    (h : addNeighborCandidate g c o = (c', none)) : ClusterInv g c' := by
  have hfr := anc_frame g c o
  rw [h] at hfr
  rcases anc_ok_nbrs h with hn | ⟨hn, hn2, _⟩
  · have : c' = c := by
      cases c'
      cases c
      simp_all
    rw [this]
    exact hI
  · have hc' : c' = { c with nbrs := dput (getND g o).index o c.nbrs } := by
      cases c'
      cases c
      simp_all
    subst hc'
    constructor
    · exact hI.nodesNodup
    · exact hI.srcsNodup
    · exact nodup_dkeys_dput hI.nbrsNodup
    · exact hI.nodesCoh
    · exact hI.srcsCoh
    · intro p hp
      rcases mem_dput hp with hp | hp
      · rw [hp]
        exact ⟨rfl, ho⟩
      · exact hI.nbrsCoh p hp
    · intro k hk
      rcases mem_dkeys_dput.1 hk with he | hk
      · rw [he]
        exact dget_eq_none_iff.1 hn2
      · exact hI.disj k hk
    · exact hI.srcsSub
    · exact hI.degEq
    · exact hI.lisNodup
    · exact hI.lis

theorem rnc_frame (g : GraphSt) (c : Cluster) (nb : OID) :
    (removeNbrCheck g c nb).1.srcs = c.srcs ∧
    (removeNbrCheck g c nb).1.nodes = c.nodes ∧
    (removeNbrCheck g c nb).1.degree = c.degree ∧
    (removeNbrCheck g c nb).1.listeners = c.listeners := by
  unfold removeNbrCheck
  split
  · exact ⟨rfl, rfl, rfl, rfl⟩
  · exact ⟨rfl, rfl, rfl, rfl⟩
  · split
    · exact ⟨rfl, rfl, rfl, rfl⟩
    · exact ⟨rfl, rfl, rfl, rfl⟩

theorem rnc_ok_nbrs {g : GraphSt} {c c' : Cluster} {nb : OID}
    (h : removeNbrCheck g c nb = (c', none)) :
    c'.nbrs = c.nbrs ∨ c'.nbrs = ddel (getND g nb).index c.nbrs := by
  unfold removeNbrCheck at h
  cases h1 : isNbrOfCluster g c nb with
  | error e =>
    rw [h1] at h
    simp at h
  | ok b =>
    cases b with
    | true =>
      rw [h1] at h
      simp at h
      left
      rw [← h]
    | false =>
      rw [h1] at h
      by_cases h2 : (dget (getND g nb).index c.nbrs).isSome
      · rw [if_pos h2] at h
        simp at h
        right
        rw [← h]
      · rw [if_neg h2] at h
        simp at h
        left
        rw [← h]

theorem remove_assemble {g : GraphSt} {c : Cluster} {o : OID}
    (hI : ClusterInv g c)
    (hmem : dget (getND g o).index c.nodes = some o)
    (hsrc : dget (getND g o).index c.srcs = none)
    (nb2 : List (Int × OID))
    (h5 : (dkeys nb2).Nodup)
    (h6 : ∀ p ∈ nb2, (getND g p.2).index = p.1 ∧ p.2 ∈ dkeys g)
    (h7 : ∀ k ∈ dkeys nb2, k ∈ dkeys c.nbrs) :
    ClusterInv g
      { srcs := c.srcs, nodes := ddel (getND g o).index c.nodes, nbrs := nb2,
        degree := c.degree - ((getND g o).deg : Int), listeners := c.listeners.erase o } := by
  obtain ⟨l1, l2, hsplit, hdel, hk1⟩ := ddel_split hI.nodesNodup hmem
  have hvals : dvals c.nodes = dvals l1 ++ o :: dvals l2 := by
    rw [hsplit]
    simp
  have hvals2 : dvals (ddel (getND g o).index c.nodes) = dvals l1 ++ dvals l2 := by
    rw [hdel]
    simp
  have hvnd := hI.valsNodup
  rw [hvals, List.nodup_append] at hvnd
  have hno1 : o ∉ dvals l1 := fun hm => hvnd.2.2 hm (List.mem_cons_self _ _)
  have hno2 : o ∉ dvals l2 := (List.nodup_cons.1 hvnd.2.1).1
  constructor
  · exact nodup_dkeys_ddel hI.nodesNodup
  · exact hI.srcsNodup
  · exact h5
  · intro p hp
    exact hI.nodesCoh p (mem_ddel hp)
  · exact hI.srcsCoh
  · exact h6
  · intro k hk hkn
    exact hI.disj k (h7 k hk) (dkeys_ddel_subset hkn)
  · intro p hp
    have hne : p.1 ≠ (getND g o).index := by
      intro he
      have := dget_of_mem_nodup hI.srcsNodup hp
      rw [he] at this
      rw [this] at hsrc
      cases hsrc
    show dget p.1 (ddel (getND g o).index c.nodes) = some p.2
    rw [dget_ddel_ne hne]
    exact hI.srcsSub p hp
  · show c.degree - ((getND g o).deg : Int) = sumDeg g (ddel (getND g o).index c.nodes)
    rw [sumDeg_ddel hI.nodesNodup hmem, hI.degEq]
  · exact hI.lisNodup.erase o
  · intro o'
    show o' ∈ c.listeners.erase o ↔ o' ∈ dvals (ddel (getND g o).index c.nodes)
    rw [hI.lisNodup.mem_erase_iff, hI.lis o', hvals, hvals2]
    simp only [List.mem_append, List.mem_cons]
    constructor
    · rintro ⟨hne, hm | hm⟩
      · exact Or.inl hm
      · rcases hm with he | hm
        · exact absurd he hne
        · exact Or.inr hm
    · intro hm
      rcases hm with hm | hm
      · exact ⟨fun he => hno1 (he ▸ hm), Or.inl hm⟩
      · exact ⟨fun he => hno2 (he ▸ hm), Or.inr (Or.inr hm)⟩

theorem removeNodeInternal_frames (g : GraphSt) (c : Cluster) (o : OID) :
    (removeNodeInternal g c o).1.srcs = c.srcs ∧
    (removeNodeInternal g c o).1.nodes = ddel (getND g o).index c.nodes ∧
    (removeNodeInternal g c o).1.degree = c.degree - ((getND g o).deg : Int) ∧
    (removeNodeInternal g c o).1.listeners = c.listeners.erase o := by
  cases hl : foldStop (removeNbrCheck g)
      { c with
        nodes := ddel (getND g o).index c.nodes
        listeners := c.listeners.erase o
        degree := c.degree - ((getND g o).deg : Int) } (getND g o).nbrs with
  | mk c2 e2 =>
    have hs : c2.srcs = c.srcs := by
      have := foldStop_frame Cluster.srcs (removeNbrCheck g)
        (fun c a => (rnc_frame g c a).1) (getND g o).nbrs
        { c with
          nodes := ddel (getND g o).index c.nodes
          listeners := c.listeners.erase o
          degree := c.degree - ((getND g o).deg : Int) }
      rw [hl] at this
      exact this
    have hn : c2.nodes = ddel (getND g o).index c.nodes := by
      have := foldStop_frame Cluster.nodes (removeNbrCheck g)
        (fun c a => (rnc_frame g c a).2.1) (getND g o).nbrs
        { c with
          nodes := ddel (getND g o).index c.nodes
          listeners := c.listeners.erase o
          degree := c.degree - ((getND g o).deg : Int) }
      rw [hl] at this
      exact this
    have hdg : c2.degree = c.degree - ((getND g o).deg : Int) := by
      have := foldStop_frame Cluster.degree (removeNbrCheck g)
        (fun c a => (rnc_frame g c a).2.2.1) (getND g o).nbrs
        { c with
          nodes := ddel (getND g o).index c.nodes
          listeners := c.listeners.erase o
          degree := c.degree - ((getND g o).deg : Int) }
      rw [hl] at this
      exact this
    have hlis : c2.listeners = c.listeners.erase o := by
      have := foldStop_frame Cluster.listeners (removeNbrCheck g)
        (fun c a => (rnc_frame g c a).2.2.2) (getND g o).nbrs
        { c with
          nodes := ddel (getND g o).index c.nodes
          listeners := c.listeners.erase o
          degree := c.degree - ((getND g o).deg : Int) }
      rw [hl] at this
      exact this
    cases e2 with
    | some e =>
      have hres : removeNodeInternal g c o = (c2, some e) := by
        simp [removeNodeInternal, hl]
      rw [hres]
      exact ⟨hs, hn, hdg, hlis⟩
    | none =>
      cases h2 : isNbrOfCluster g c2 o with
      | error e =>
        have hres : removeNodeInternal g c o = (c2, some e) := by
          simp [removeNodeInternal, hl, h2]
        rw [hres]
        exact ⟨hs, hn, hdg, hlis⟩
      | ok b =>
        cases b with
        | true =>
          have hres : removeNodeInternal g c o = addNeighborCandidate g c2 o := by
            simp [removeNodeInternal, hl, h2]
          rw [hres]
          have hfr := anc_frame g c2 o
          exact ⟨hfr.1.trans hs, hfr.2.1.trans hn, hfr.2.2.1.trans hdg, hfr.2.2.2.trans hlis⟩
        | false =>
          have hres : removeNodeInternal g c o = (c2, none) := by
            simp [removeNodeInternal, hl, h2]
          rw [hres]
          exact ⟨hs, hn, hdg, hlis⟩

theorem foldRnc_frames {g : GraphSt} (c : Cluster) (l : List OID) {c2 : Cluster}
    {e2 : Option PyError}
    (hl : foldStop (removeNbrCheck g) c l = (c2, e2)) :
    c2.srcs = c.srcs ∧ c2.nodes = c.nodes ∧ c2.degree = c.degree ∧
    c2.listeners = c.listeners := by
  refine ⟨?_, ?_, ?_, ?_⟩
  · have := foldStop_frame Cluster.srcs (removeNbrCheck g)
      (fun c a => (rnc_frame g c a).1) l c
    rw [hl] at this
    exact this
  · have := foldStop_frame Cluster.nodes (removeNbrCheck g)
      (fun c a => (rnc_frame g c a).2.1) l c
    rw [hl] at this
    exact this
  · have := foldStop_frame Cluster.degree (removeNbrCheck g)
      (fun c a => (rnc_frame g c a).2.2.1) l c
    rw [hl] at this
    exact this
  · have := foldStop_frame Cluster.listeners (removeNbrCheck g)
      (fun c a => (rnc_frame g c a).2.2.2) l c
    rw [hl] at this
    exact this

theorem removeNodeInternal_ok {g : GraphSt} {c c' : Cluster} {o : OID}
    (hg : GraphClosed g) (hI : ClusterInv g c)
    (hmem : dget (getND g o).index c.nodes = some o)
    (hsrc : dget (getND g o).index c.srcs = none)
    (h : removeNodeInternal g c o = (c', none)) : ClusterInv g c' := by
  have ho : o ∈ dkeys g := (hI.nodesCoh _ (dget_mem hmem)).2
  cases hl : foldStop (removeNbrCheck g)
      { c with
        nodes := ddel (getND g o).index c.nodes
        listeners := c.listeners.erase o
        degree := c.degree - ((getND g o).deg : Int) } (getND g o).nbrs with
  | mk c2 e2 =>
    obtain ⟨hfs, hfn, hfd, hfl⟩ := foldRnc_frames _ _ hl
    have hPn : e2 = none →
        (dkeys c2.nbrs).Nodup ∧
        (∀ p ∈ c2.nbrs, (getND g p.2).index = p.1 ∧ p.2 ∈ dkeys g) ∧
        (∀ k ∈ dkeys c2.nbrs, k ∈ dkeys c.nbrs) := by
      intro he2
      subst he2
      refine foldStop_ok_ind (removeNbrCheck g) (getND g o).nbrs
        (fun x =>
          (dkeys x.nbrs).Nodup ∧
          (∀ p ∈ x.nbrs, (getND g p.2).index = p.1 ∧ p.2 ∈ dkeys g) ∧
          (∀ k ∈ dkeys x.nbrs, k ∈ dkeys c.nbrs))
        ?_
        { c with
          nodes := ddel (getND g o).index c.nodes
          listeners := c.listeners.erase o
          degree := c.degree - ((getND g o).deg : Int) }
        c2 ⟨hI.nbrsNodup, hI.nbrsCoh, fun k hk => hk⟩ hl
      intro x nb hnb hPx x' hx'
      obtain ⟨hx5, hx6, hx7⟩ := hPx
      rcases rnc_ok_nbrs hx' with hn | hn
      · rw [hn]
        exact ⟨hx5, hx6, hx7⟩
      · rw [hn]
        exact ⟨nodup_dkeys_ddel hx5, fun p hp => hx6 p (mem_ddel hp),
          fun k hk => hx7 k (dkeys_ddel_subset hk)⟩
    cases e2 with
    | some e =>
      have hres : removeNodeInternal g c o = (c2, some e) := by
        simp [removeNodeInternal, hl]
      rw [hres] at h
      simp at h
    | none =>
      obtain ⟨hP5, hP6, hP7⟩ := hPn rfl
      have hI2 : ClusterInv g c2 := by
        have hasm := remove_assemble hI hmem hsrc c2.nbrs hP5 hP6 hP7
        have hstate : c2 =
            { srcs := c.srcs, nodes := ddel (getND g o).index c.nodes, nbrs := c2.nbrs,
              degree := c.degree - ((getND g o).deg : Int),
              listeners := c.listeners.erase o } := by
          cases c2
          simp_all
        rw [hstate]
        exact hasm
      cases h2 : isNbrOfCluster g c2 o with
      | error e =>
        have hres : removeNodeInternal g c o = (c2, some e) := by
          simp [removeNodeInternal, hl, h2]
        rw [hres] at h
        simp at h
      | ok b =>
        cases b with
        | true =>
          have hres : removeNodeInternal g c o = addNeighborCandidate g c2 o := by
            simp [removeNodeInternal, hl, h2]
          rw [hres] at h
          exact anc_inv hI2 ho h
        | false =>
          have hres : removeNodeInternal g c o = (c2, none) := by
            simp [removeNodeInternal, hl, h2]
          rw [hres] at h
          simp at h
          rwa [← h]

theorem add_node_srcs (g : GraphSt) (c : Cluster) (n : Option OID) :
    (add_node g c n).1.srcs = c.srcs := by
  cases n with
  | none => rfl
  | some o =>
    cases hd : dget (getND g o).index c.nodes with
    | some oo =>
      by_cases he : oo = o
      · have hres : add_node g c (some o) = (c, none) := by simp [add_node, hd, he]
        rw [hres]
      · have hres : add_node g c (some o) = (c, some .identityConflict) := by
          simp [add_node, hd, he]
        rw [hres]
    | none =>
      cases hl : foldStop (addNeighborCandidate g)
          { c with
            nodes := dput (getND g o).index o c.nodes
            listeners := o :: c.listeners
            degree := c.degree + ((getND g o).deg : Int) } (getND g o).nbrs with
      | mk c2 e2 =>
        have hs : c2.srcs = c.srcs := by
          have := foldStop_frame Cluster.srcs (addNeighborCandidate g)
            (fun c a => (anc_frame g c a).1) (getND g o).nbrs
            { c with
              nodes := dput (getND g o).index o c.nodes
              listeners := o :: c.listeners
              degree := c.degree + ((getND g o).deg : Int) }
          rw [hl] at this
          exact this
        cases e2 with
        | some e =>
          have hres : add_node g c (some o) = (c2, some e) := by simp [add_node, hd, hl]
          rw [hres]
          exact hs
        | none =>
          cases hcl : dget (getND g o).index c2.nbrs with
          | some oo =>
            by_cases he : oo = o
            · have hres : add_node g c (some o) =
                  ({ c2 with nbrs := ddel (getND g o).index c2.nbrs }, none) := by
                simp [add_node, hd, hl, hcl, he]
              rw [hres]
              exact hs
            · have hres : add_node g c (some o) = (c2, some .identityConflict) := by
                simp [add_node, hd, hl, hcl, he]
              rw [hres]
              exact hs
          | none =>
            have hres : add_node g c (some o) = (c2, none) := by
              simp [add_node, hd, hl, hcl]
            rw [hres]
            exact hs

theorem add_source_node_ok {g : GraphSt} {c c' : Cluster} {o : OID}
    (hg : GraphClosed g) (hI : ClusterInv g c) (ho : o ∈ dkeys g)
    (h : add_source_node g c (some o) = (c', none)) : ClusterInv g c' := by
  cases hs : dget (getND g o).index c.srcs with
  | some oo =>
    by_cases he : oo = o
    · have hres : add_source_node g c (some o) = (c, none) := by
        simp [add_source_node, hs, he]
      rw [hres] at h
      simp at h
      rwa [← h]
    · have hres : add_source_node g c (some o) = (c, some .identityConflict) := by
        simp [add_source_node, hs, he]
      rw [hres] at h
      simp at h
  | none =>
    cases hb : containsNode g c (some o) with
    | error e =>
      have hres : add_source_node g c (some o) = (c, some e) := by
        simp [add_source_node, hs, hb]
      rw [hres] at h
      simp at h
    | ok b =>
      cases b with
      | true =>
        have hres : add_source_node g c (some o) =
            ({ c with srcs := dput (getND g o).index o c.srcs }, none) := by
          simp [add_source_node, hs, hb]
        rw [hres] at h
        simp at h
        rw [← h]
        have hmem := containsNode_true_iff.1 hb
        constructor
        · exact hI.nodesNodup
        · exact nodup_dkeys_dput hI.srcsNodup
        · exact hI.nbrsNodup
        · exact hI.nodesCoh
        · intro p hp
          rcases mem_dput hp with hp | hp
          · rw [hp]
            exact ⟨rfl, ho⟩
          · exact hI.srcsCoh p hp
        · exact hI.nbrsCoh
        · exact hI.disj
        · intro p hp
          rcases mem_dput hp with hp | hp
          · rw [hp]
            exact hmem
          · exact hI.srcsSub p hp
        · exact hI.degEq
        · exact hI.lisNodup
        · exact hI.lis
      | false =>
        cases han : add_node g c (some o) with
        | mk c1 e1 =>
          cases e1 with
          | some e =>
            have hres : add_source_node g c (some o) = (c1, some e) := by
              simp [add_source_node, hs, hb, han]
            rw [hres] at h
            simp at h
          | none =>
            obtain ⟨hI1, hd1⟩ := add_node_ok hg hI ho han
            have hsrcs1 : c1.srcs = c.srcs := by
              have := add_node_srcs g c (some o)
              rw [han] at this
              exact this
            have hres : add_source_node g c (some o) =
                ({ c1 with srcs := dput (getND g o).index o c1.srcs }, none) := by
              simp [add_source_node, hs, hb, han]
            rw [hres] at h
            simp at h
            rw [← h]
            constructor
            · exact hI1.nodesNodup
            · exact nodup_dkeys_dput hI1.srcsNodup
            · exact hI1.nbrsNodup
            · exact hI1.nodesCoh
            · intro p hp
              rcases mem_dput hp with hp | hp
              · rw [hp]
                exact ⟨rfl, ho⟩
              · exact hI1.srcsCoh p hp
            · exact hI1.nbrsCoh
            · exact hI1.disj
            · intro p hp
              rcases mem_dput hp with hp | hp
              · rw [hp]
                exact hd1
              · exact hI1.srcsSub p hp
            · exact hI1.degEq
            · exact hI1.lisNodup
            · exact hI1.lis

theorem remove_node_ok {g : GraphSt} {c c' : Cluster} {n : Option OID}
    (hg : GraphClosed g) (hI : ClusterInv g c)
    (h : remove_node g c n = (c', none)) : ClusterInv g c' := by
  cases n with
  | none =>
    have : c = c' := by
      have hres : remove_node g c none = (c, none) := rfl
      rw [hres] at h
      simpa using h
    rwa [← this]
  | some o =>
    cases hb : containsNode g c (some o) with
    | error e =>
      have hres : remove_node g c (some o) = (c, some e) := by simp [remove_node, hb]
      rw [hres] at h
      simp at h
    | ok b =>
      cases b with
      | false =>
        have hres : remove_node g c (some o) = (c, none) := by simp [remove_node, hb]
        rw [hres] at h
        simp at h
        rwa [← h]
      | true =>
        cases hsn : isSourceNode g c (some o) with
        | error e =>
          have hres : remove_node g c (some o) = (c, some e) := by
            simp [remove_node, hb, hsn]
          rw [hres] at h
          simp at h
        | ok sb =>
          cases sb with
          | true =>
            have hres : remove_node g c (some o) = (c, none) := by
              simp [remove_node, hb, hsn]
            rw [hres] at h
            simp at h
            rwa [← h]
          | false =>
            have hres : remove_node g c (some o) = removeNodeInternal g c o := by
              simp [remove_node, hb, hsn]
            rw [hres] at h
            exact removeNodeInternal_ok hg hI (containsNode_true_iff.1 hb)
              (isSourceNode_false_iff.1 hsn) h

theorem remove_source_node_ok {g : GraphSt} {c c' : Cluster} {n : Option OID}
    (hg : GraphClosed g) (hI : ClusterInv g c)
    (h : remove_source_node g c n = (c', none)) : ClusterInv g c' := by
  cases n with
  | none =>
    have : c = c' := by
      have hres : remove_source_node g c none = (c, none) := rfl
      rw [hres] at h
      simpa using h
    rwa [← this]
  | some o =>
    cases hb : containsNode g c (some o) with
    | error e =>
      have hres : remove_source_node g c (some o) = (c, some e) := by
        simp [remove_source_node, hb]
      rw [hres] at h
      simp at h
    | ok b =>
      cases b with
      | false =>
        have hres : remove_source_node g c (some o) = (c, none) := by
          simp [remove_source_node, hb]
        rw [hres] at h
        simp at h
        rwa [← h]
      | true =>
        cases hsn : isSourceNode g c (some o) with
        | error e =>
          have hres : remove_source_node g c (some o) = (c, some e) := by
            simp [remove_source_node, hb, hsn]
          rw [hres] at h
          simp at h
        | ok sb =>
          cases sb with
          | false =>
            have hres : remove_source_node g c (some o) = (c, none) := by
              simp [remove_source_node, hb, hsn]
            rw [hres] at h
            simp at h
            rwa [← h]
          | true =>
            have hres : remove_source_node g c (some o) =
                removeNodeInternal g { c with srcs := ddel (getND g o).index c.srcs } o := by
              simp [remove_source_node, hb, hsn]
            rw [hres] at h
            have hsv := isSourceNode_true_iff.1 hsn
            have hImid : ClusterInv g { c with srcs := ddel (getND g o).index c.srcs } := by
              constructor
              · exact hI.nodesNodup
              · exact nodup_dkeys_ddel hI.srcsNodup
              · exact hI.nbrsNodup
              · exact hI.nodesCoh
              · intro p hp
                exact hI.srcsCoh p (mem_ddel hp)
              · exact hI.nbrsCoh
              · exact hI.disj
              · intro p hp
                exact hI.srcsSub p (mem_ddel hp)
              · exact hI.degEq
              · exact hI.lisNodup
              · exact hI.lis
            exact removeNodeInternal_ok hg hImid (containsNode_true_iff.1 hb)
              (dget_ddel_self hI.srcsNodup) h

theorem add_nodes_ok {g : GraphSt} {c c' : Cluster} {l : List OID}
    (hg : GraphClosed g) (hI : ClusterInv g c) (hl : ∀ o ∈ l, o ∈ dkeys g)
    (h : add_nodes g c (some l) = (c', none)) : ClusterInv g c' :=
  foldStop_ok_ind (fun c o => add_node g c (some o)) l (ClusterInv g)
    (fun x o hol hx x' hx' => (add_node_ok hg hx (hl o hol) hx').1) c c' hI h

theorem add_source_nodes_ok {g : GraphSt} {c c' : Cluster} {l : List OID}
    (hg : GraphClosed g) (hI : ClusterInv g c) (hl : ∀ o ∈ l, o ∈ dkeys g)
    (h : add_source_nodes g c (some l) = (c', none)) : ClusterInv g c' :=
  foldStop_ok_ind (fun c o => add_source_node g c (some o)) l (ClusterInv g)
    (fun x o hol hx x' hx' => add_source_node_ok hg hx (hl o hol) hx') c c' hI h

theorem remove_nodes_ok {g : GraphSt} {c c' : Cluster} {nl : Option (List OID)}
    (hg : GraphClosed g) (hI : ClusterInv g c)
    (h : remove_nodes g c nl = (c', none)) : ClusterInv g c' := by
  cases nl with
  | none =>
    have : c = c' := by simpa [remove_nodes] using h
    rwa [← this]
  | some l =>
    exact foldStop_ok_ind (fun c o => remove_node g c (some o)) l (ClusterInv g)
      (fun x o _ hx x' hx' => remove_node_ok hg hx hx') c c' hI h

theorem remove_source_nodes_ok {g : GraphSt} {c c' : Cluster} {nl : Option (List OID)}
    (hg : GraphClosed g) (hI : ClusterInv g c)
    (h : remove_source_nodes g c nl = (c', none)) : ClusterInv g c' := by
  cases nl with
  | none =>
    have : c = c' := by simpa [remove_source_nodes] using h
    rwa [← this]
  | some l =>
    exact foldStop_ok_ind (fun c o => remove_source_node g c (some o)) l (ClusterInv g)
      (fun x o _ hx x' hx' => remove_source_node_ok hg hx hx') c c' hI h

theorem coh_graphAddNbr {g : GraphSt} {m n : OID} (hm : m ∈ dkeys g)
    {l : List (Int × OID)}
    (h : ∀ p ∈ l, (getND g p.2).index = p.1 ∧ p.2 ∈ dkeys g) :
    ∀ p ∈ l, (getND (graphAddNbr g m n) p.2).index = p.1 ∧
      p.2 ∈ dkeys (graphAddNbr g m n) := by
  intro p hp
  refine ⟨?_, ?_⟩
  · rw [getND_index_graphAddNbr]
    exact (h p hp).1
  · rw [dkeys_graphAddNbr hm]
    exact (h p hp).2

theorem neighborAdded_ok {g g' : GraphSt} {c c' : Cluster} {m n : OID}
    (hg : GraphClosed g) (hI : ClusterInv g c) (hm : m ∈ dkeys g) (hn : n ∈ dkeys g)
    (h : neighborAdded g c m n = (g', (c', none))) :
    GraphClosed g' ∧ ClusterInv g' c' := by
  have hg' : g' = graphAddNbr g m n := by
    have := congrArg Prod.fst h
    exact this.symm
  subst hg'
  refine ⟨graphClosed_addNbr hg hm hn, ?_⟩
  have hc : (if m ∈ c.listeners then
      addNeighborCandidate (graphAddNbr g m n) { c with degree := c.degree + 1 } n
    else (c, none)) = (c', none) := by
    have := congrArg Prod.snd h
    exact this
  by_cases hmem : m ∈ c.listeners
  · rw [if_pos hmem] at hc
    have hmv : m ∈ dvals c.nodes := (hI.lis m).1 hmem
    have hImid : ClusterInv (graphAddNbr g m n) { c with degree := c.degree + 1 } := by
      constructor
      · exact hI.nodesNodup
      · exact hI.srcsNodup
      · exact hI.nbrsNodup
      · exact coh_graphAddNbr hm hI.nodesCoh
      · exact coh_graphAddNbr hm hI.srcsCoh
      · exact coh_graphAddNbr hm hI.nbrsCoh
      · exact hI.disj
      · exact hI.srcsSub
      · show c.degree + 1 = sumDeg (graphAddNbr g m n) c.nodes
        rw [sumDeg_graphAddNbr_mem hI.valsNodup hmv, hI.degEq]
      · exact hI.lisNodup
      · exact hI.lis
    exact anc_inv hImid (by rw [dkeys_graphAddNbr hm]; exact hn) hc
  · rw [if_neg hmem] at hc
    simp at hc
    rw [← hc]
    have hmv : m ∉ dvals c.nodes := fun hv => hmem ((hI.lis m).2 hv)
    constructor
    · exact hI.nodesNodup
    · exact hI.srcsNodup
    · exact hI.nbrsNodup
    · exact coh_graphAddNbr hm hI.nodesCoh
    · exact coh_graphAddNbr hm hI.srcsCoh
    · exact coh_graphAddNbr hm hI.nbrsCoh
    · exact hI.disj
    · exact hI.srcsSub
    · show c.degree = sumDeg (graphAddNbr g m n) c.nodes
      rw [sumDeg_graphAddNbr_not_mem hmv, hI.degEq]
    · exact hI.lisNodup
    · exact hI.lis

theorem clusterStep_preserves {s s' : GraphSt × Cluster} (hstep : ClusterStep s s')
    (h : GraphClosed s.1 ∧ ClusterInv s.1 s.2) :
    GraphClosed s'.1 ∧ ClusterInv s'.1 s'.2 := by
  cases hstep with
  | addSourceNode g c c' n hn hop =>
    cases n with
    | none => simp [add_source_node] at hop
    | some o => exact ⟨h.1, add_source_node_ok h.1 h.2 (hn o rfl) hop⟩
  | addNode g c c' n hn hop =>
    cases n with
    | none => simp [add_node] at hop
    | some o => exact ⟨h.1, (add_node_ok h.1 h.2 (hn o rfl) hop).1⟩
  | removeSourceNode g c c' n hop =>
    exact ⟨h.1, remove_source_node_ok h.1 h.2 hop⟩
  | removeNode g c c' n hop =>
    exact ⟨h.1, remove_node_ok h.1 h.2 hop⟩
  | addSourceNodes g c c' nl hl hop =>
    cases nl with
    | none => simp [add_source_nodes] at hop
    | some l => exact ⟨h.1, add_source_nodes_ok h.1 h.2 (by simpa using hl) hop⟩
  | addNodes g c c' nl hl hop =>
    cases nl with
    | none => simp [add_nodes] at hop
    | some l => exact ⟨h.1, add_nodes_ok h.1 h.2 (by simpa using hl) hop⟩
  | removeSourceNodes g c c' nl hop =>
    exact ⟨h.1, remove_source_nodes_ok h.1 h.2 hop⟩
  | removeNodes g c c' nl hop =>
    exact ⟨h.1, remove_nodes_ok h.1 h.2 hop⟩
  | nbrAdded g g' c c' m n hm hn hop =>
    exact neighborAdded_ok h.1 h.2 hm hn hop

/-- Claim C1. For every `Cluster` state reachable by any sequence of the
public operations (`add_source_node`, `add_node`, `remove_source_node`,
`remove_node`, their batch variants, and the neighbor-growth
notification handler), after each operation completes: the boundary key
set and the member key set are disjoint, every source node is a member
(stored under the same index with the same object), and the aggregate
degree equals the sum of the current degrees of the members. -/
theorem c1_cluster_invariants (g0 : GraphSt) (hg0 : GraphClosed g0)
    (s : GraphSt × Cluster) (hr : ClusterReachable g0 s) :
    (∀ k ∈ dkeys s.2.nbrs, k ∉ dkeys s.2.nodes) ∧
    (∀ p ∈ s.2.srcs, dget p.1 s.2.nodes = some p.2) ∧
    s.2.degree = sumDeg s.1 s.2.nodes := by
  have hmain : GraphClosed s.1 ∧ ClusterInv s.1 s.2 := by
    induction hr with
    | refl => exact ⟨hg0, emptyCluster_inv g0⟩
    | tail hsteps hstep ih => exact clusterStep_preserves hstep ih
  exact ⟨hmain.2.disj, hmain.2.srcsSub, hmain.2.degEq⟩

/-- Witness for C1: a concrete reachable state with the invariant
evaluated. -/
theorem c1_cluster_invariants_witness :
    GraphClosed gW1 ∧ ClusterReachable gW1 (gW1, cW1) ∧
    ((∀ k ∈ dkeys cW1.nbrs, k ∉ dkeys cW1.nodes) ∧
     (∀ p ∈ cW1.srcs, dget p.1 cW1.nodes = some p.2) ∧
     cW1.degree = sumDeg gW1 cW1.nodes) := by
  have hg : GraphClosed gW1 := by
    have hg' : ∀ p ∈ gW1, ∀ nb ∈ p.2.nbrs, nb ∈ dkeys gW1 := by decide
    exact hg'
  have hr : ClusterReachable gW1 (gW1, cW1) :=
    Relation.ReflTransGen.single
      (ClusterStep.addSourceNode gW1 emptyCluster cW1 (some 1)
        (fun o ho => by cases ho; decide)
        (by decide))
  exact ⟨hg, hr, c1_cluster_invariants gW1 hg (gW1, cW1) hr⟩

/-- Claim C8. A node that is currently a tracked source node cannot be
removed through `remove_node` (the call is a no-op leaving the entire
state unchanged); `remove_source_node`, whenever it completes, removes
both the node's source status and its membership. -/
theorem c8_source_removal_protection (g : GraphSt) (c : Cluster) (o : OID)
    (hns : (dkeys c.srcs).Nodup) (hnn : (dkeys c.nodes).Nodup)
    (hmem : dget (getND g o).index c.nodes = some o)
    (hsrc : dget (getND g o).index c.srcs = some o) :
    remove_node g c (some o) = (c, none) ∧
    (∀ c', remove_source_node g c (some o) = (c', none) →
      dget (getND g o).index c'.srcs = none ∧ dget (getND g o).index c'.nodes = none) := by
  have hb : containsNode g c (some o) = .ok true := containsNode_true_iff.2 hmem
  have hsn : isSourceNode g c (some o) = .ok true := isSourceNode_true_iff.2 hsrc
  constructor
  · simp [remove_node, hb, hsn]
  · intro c' h
    have hres : remove_source_node g c (some o) =
        removeNodeInternal g { c with srcs := ddel (getND g o).index c.srcs } o := by
      simp [remove_source_node, hb, hsn]
    rw [hres] at h
    obtain ⟨hfs, hfn, _, _⟩ :=
      removeNodeInternal_frames g { c with srcs := ddel (getND g o).index c.srcs } o
    rw [h] at hfs hfn
    constructor
    · show dget (getND g o).index c'.srcs = none
      rw [hfs]
      exact dget_ddel_self hns
    · show dget (getND g o).index c'.nodes = none
      rw [hfn]
      exact dget_ddel_self hnn

/-- Witness for C8: node 1 is a tracked source of `cW1`; `remove_node`
leaves the state untouched and `remove_source_node` evicts it from both
maps. -/
theorem c8_source_removal_protection_witness :
    remove_node gW1 cW1 (some 1) = (cW1, none) ∧
    (dget (getND gW1 1).index (⟨[], [], [], 0, []⟩ : Cluster).srcs = none ∧
     dget (getND gW1 1).index (⟨[], [], [], 0, []⟩ : Cluster).nodes = none) :=
  ⟨(c8_source_removal_protection gW1 cW1 1 (by decide) (by decide) (by decide) (by decide)).1,
   (c8_source_removal_protection gW1 cW1 1 (by decide) (by decide) (by decide) (by decide)).2
     ⟨[], [], [], 0, []⟩ (by decide)⟩

/-- Counterexample to C9 as stated: `add_node(node 11)` hits the
identity conflict against the boundary entry of index 5 only *after*
inserting node 11 into the member map, so the operation raises
`IdentityConflict` with its effect partially applied (the member map has
changed). -/
theorem c9_counterexample :
    ClusterReachable g9 (g9, c9base) ∧
    (add_node g9 c9base (some 11)).2 = some PyError.identityConflict ∧
    (add_node g9 c9base (some 11)).1.nodes ≠ c9base.nodes := by
  refine ⟨?_, by decide, by decide⟩
  exact Relation.ReflTransGen.single
    (ClusterStep.addNode g9 emptyCluster c9base (some 1)
      (fun o ho => by cases ho; decide)
      (by decide))

/-- Claim C9, amended. Re-adding the same node object is a no-op for both
`add_node` and `add_source_node`; a `None` argument raises
`NullArgument` with no state change; a different object sharing a
tracked identity raises `IdentityConflict`, and when the conflict is
detected against the member map (`add_node`) or the source map
(`add_source_node`) the state is unchanged — but `add_node` detects a
conflict against the *boundary* map only after the node has been added,
leaving a partially applied effect. -/
theorem c9_add_idempotence_amended :
    (∀ (g : GraphSt) (c : Cluster) (o : OID),
      dget (getND g o).index c.nodes = some o → add_node g c (some o) = (c, none)) ∧
    (∀ (g : GraphSt) (c : Cluster) (o : OID),
      dget (getND g o).index c.srcs = some o → add_source_node g c (some o) = (c, none)) ∧
    (∀ (g : GraphSt) (c : Cluster),
      add_node g c none = (c, some PyError.nullArgument)) ∧
    (∀ (g : GraphSt) (c : Cluster),
      add_source_node g c none = (c, some PyError.nullArgument)) ∧
    (∀ (g : GraphSt) (c : Cluster) (o o' : OID),
      dget (getND g o).index c.nodes = some o' → o' ≠ o →
      add_node g c (some o) = (c, some PyError.identityConflict)) ∧
    (∀ (g : GraphSt) (c : Cluster) (o o' : OID),
      dget (getND g o).index c.srcs = some o' → o' ≠ o →
      add_source_node g c (some o) = (c, some PyError.identityConflict)) ∧
    ((add_node g9 c9base (some 11)).2 = some PyError.identityConflict ∧
     (add_node g9 c9base (some 11)).1.nodes ≠ c9base.nodes) := by
  refine ⟨?_, ?_, fun g c => rfl, fun g c => rfl, ?_, ?_, by decide, by decide⟩
  · intro g c o h
    simp [add_node, h]
  · intro g c o h
    simp [add_source_node, h]
  · intro g c o o' h hne
    simp [add_node, h, hne]
  · intro g c o o' h hne
    simp [add_source_node, h, hne]

/-- Witness for C9 (amended): re-adding the already contained source
node 1 of `cW1` is a no-op. -/
theorem c9_add_idempotence_amended_witness :
    add_node gW1 cW1 (some 1) = (cW1, none) :=
  c9_add_idempotence_amended.1 gW1 cW1 1 (by decide)

/-- Counterexample to C6 as stated: `add_nodes` with an absent (`None`)
list is not a no-op — it raises a `TypeError` (the source has no `None`
guard on the add variants). -/
theorem c6_counterexample :
    add_nodes gW1 emptyCluster none = (emptyCluster, some PyError.typeError) := rfl

/-- Claim C6, amended. Each batch operation applies the corresponding
single-node operation to each list element in order (stopping at the
first raised error); an absent (`None`) list is a silent no-op for
`remove_nodes` and `remove_source_nodes`, while `add_nodes` and
`add_source_nodes` raise a `TypeError` on a `None` list. -/
theorem c6_batch_operations_amended :
    (∀ (g : GraphSt) (c : Cluster), add_nodes g c (some []) = (c, none)) ∧
    (∀ (g : GraphSt) (c : Cluster) (o : OID) (l : List OID),
      add_nodes g c (some (o :: l)) =
        match add_node g c (some o) with
        | (c1, none) => add_nodes g c1 (some l)
        | (c1, some e) => (c1, some e)) ∧
    (∀ (g : GraphSt) (c : Cluster), add_source_nodes g c (some []) = (c, none)) ∧
    (∀ (g : GraphSt) (c : Cluster) (o : OID) (l : List OID),
      add_source_nodes g c (some (o :: l)) =
        match add_source_node g c (some o) with
        | (c1, none) => add_source_nodes g c1 (some l)
        | (c1, some e) => (c1, some e)) ∧
    (∀ (g : GraphSt) (c : Cluster), remove_nodes g c (some []) = (c, none)) ∧
    (∀ (g : GraphSt) (c : Cluster) (o : OID) (l : List OID),
      remove_nodes g c (some (o :: l)) =
        match remove_node g c (some o) with
        | (c1, none) => remove_nodes g c1 (some l)
        | (c1, some e) => (c1, some e)) ∧
    (∀ (g : GraphSt) (c : Cluster), remove_source_nodes g c (some []) = (c, none)) ∧
    (∀ (g : GraphSt) (c : Cluster) (o : OID) (l : List OID),
      remove_source_nodes g c (some (o :: l)) =
        match remove_source_node g c (some o) with
        | (c1, none) => remove_source_nodes g c1 (some l)
        | (c1, some e) => (c1, some e)) ∧
    (∀ (g : GraphSt) (c : Cluster), remove_nodes g c none = (c, none)) ∧
    (∀ (g : GraphSt) (c : Cluster), remove_source_nodes g c none = (c, none)) ∧
    (∀ (g : GraphSt) (c : Cluster), add_nodes g c none = (c, some PyError.typeError)) ∧
    (∀ (g : GraphSt) (c : Cluster), add_source_nodes g c none = (c, some PyError.typeError)) := by
  refine ⟨fun g c => rfl, ?_, fun g c => rfl, ?_, fun g c => rfl, ?_, fun g c => rfl, ?_,
    fun g c => rfl, fun g c => rfl, fun g c => rfl, fun g c => rfl⟩
  · intro g c o l
    rw [add_nodes, foldStop]
    split <;> rfl
  · intro g c o l
    rw [add_source_nodes, foldStop]
    split <;> rfl
  · intro g c o l
    rw [remove_nodes, foldStop]
    split <;> rfl
  · intro g c o l
    rw [remove_source_nodes, foldStop]
    split <;> rfl

theorem fmm_fold_none_iff (ds : List ConnectivityGainDescriptor) :
    ∀ acc : Option ℚ, ds.foldl fmmStep acc = none ↔
      (acc = none ∧ ∀ d ∈ ds, d.coefficient_multiplier ≤ 1) := by
  induction ds with
  | nil => intro acc; simp
  | cons d t ih =>
    intro acc
    rw [List.foldl_cons, ih]
    by_cases hd : (1 : ℚ) < d.coefficient_multiplier
    · constructor
      · rintro ⟨hstep, _⟩
        exfalso
        rw [fmmStep.eq_def, if_pos hd] at hstep
        cases acc with
        | none => simp at hstep
        | some m =>
          by_cases hlt : d.coefficient_multiplier < m <;> simp [hlt] at hstep
      · rintro ⟨_, hall⟩
        exact absurd hd (not_lt.2 (hall d (List.mem_cons_self _ _)))
    · rw [fmmStep.eq_def, if_neg hd]
      constructor
      · rintro ⟨ha, hall⟩
        exact ⟨ha, fun e he => by
          rcases List.mem_cons.1 he with he | he
          · rw [he]; exact not_lt.1 hd
          · exact hall e he⟩
      · rintro ⟨ha, hall⟩
        exact ⟨ha, fun e he => hall e (List.mem_cons_of_mem _ he)⟩

theorem fmm_fold_some (ds : List ConnectivityGainDescriptor) :
    ∀ (acc : Option ℚ) (m : ℚ), (∀ x, acc = some x → 1 < x) →
      ds.foldl fmmStep acc = some m →
      1 < m ∧ (acc = some m ∨ ∃ d ∈ ds, d.coefficient_multiplier = m) ∧
      (∀ x, acc = some x → m ≤ x) ∧
      (∀ d ∈ ds, 1 < d.coefficient_multiplier → m ≤ d.coefficient_multiplier) := by
  induction ds with
  | nil =>
    intro acc m hacc h
    simp at h
    refine ⟨hacc m h, Or.inl h, ?_, by simp⟩
    intro x hx
    rw [h] at hx
    cases hx
    rfl
  | cons d t ih =>
    intro acc m hacc h
    rw [List.foldl_cons] at h
    have hacc' : ∀ x, fmmStep acc d = some x → 1 < x := by
      intro x hx
      rw [fmmStep.eq_def] at hx
      by_cases hd : (1 : ℚ) < d.coefficient_multiplier
      · rw [if_pos hd] at hx
        cases ha : acc with
        | none =>
          rw [ha] at hx
          simp at hx
          rw [← hx]
          exact hd
        | some a =>
          rw [ha] at hx
          by_cases hlt : d.coefficient_multiplier < a
          · simp [hlt] at hx
            rw [← hx]
            exact hd
          · simp [hlt] at hx
            rw [← hx]
            exact hacc a ha
      · rw [if_neg hd] at hx
        exact hacc x hx
    obtain ⟨h1, h2, h3, h4⟩ := ih (fmmStep acc d) m hacc' h
    have hstep_le : ∀ x, acc = some x → ∀ y, fmmStep acc d = some y → y ≤ x := by
      intro x hx y hy
      rw [fmmStep.eq_def] at hy
      by_cases hd : (1 : ℚ) < d.coefficient_multiplier
      · rw [if_pos hd, hx] at hy
        by_cases hlt : d.coefficient_multiplier < x
        · simp [hlt] at hy
          rw [← hy]
          exact le_of_lt hlt
        · simp [hlt] at hy
          rw [← hy]
      · rw [if_neg hd, hx] at hy
        cases hy
        rfl
    refine ⟨h1, ?_, ?_, ?_⟩
    · rcases h2 with h2 | ⟨e, he, hm⟩
      · rw [fmmStep.eq_def] at h2
        by_cases hd : (1 : ℚ) < d.coefficient_multiplier
        · rw [if_pos hd] at h2
          cases ha : acc with
          | none =>
            rw [ha] at h2
            simp at h2
            exact Or.inr ⟨d, List.mem_cons_self _ _, h2⟩
          | some a =>
            rw [ha] at h2
            by_cases hlt : d.coefficient_multiplier < a
            · simp [hlt] at h2
              exact Or.inr ⟨d, List.mem_cons_self _ _, h2⟩
            · simp [hlt] at h2
              exact Or.inl (by rw [h2])
        · rw [if_neg hd] at h2
          exact Or.inl h2
      · exact Or.inr ⟨e, List.mem_cons_of_mem _ he, hm⟩
    · intro x hx
      cases hy : fmmStep acc d with
      | none =>
        exfalso
        rw [fmmStep.eq_def, hx] at hy
        by_cases hd : (1 : ℚ) < d.coefficient_multiplier
        · rw [if_pos hd] at hy
          by_cases hlt : d.coefficient_multiplier < x <;> simp [hlt] at hy
        · rw [if_neg hd] at hy
          cases hy
      | some y =>
        exact le_trans (h3 y hy) (hstep_le x hx y hy)
    · intro e he hgt
      rcases List.mem_cons.1 he with he | he
      · subst he
        cases hy : fmmStep acc e with
        | none =>
          exfalso
          rw [fmmStep.eq_def, if_pos hgt] at hy
          cases ha : acc with
          | none => rw [ha] at hy; simp at hy
          | some a =>
            rw [ha] at hy
            by_cases hlt : e.coefficient_multiplier < a <;> simp [hlt] at hy
        | some y =>
          have hm_y := h3 y hy
          rw [fmmStep.eq_def, if_pos hgt] at hy
          cases ha : acc with
          | none =>
            rw [ha] at hy
            simp at hy
            rw [hy]
            exact hm_y
          | some a =>
            rw [ha] at hy
            by_cases hlt : e.coefficient_multiplier < a
            · simp [hlt] at hy
              rw [hy]
              exact hm_y
            · simp [hlt] at hy
              rw [← hy] at hm_y
              exact le_trans hm_y (not_lt.1 hlt)
      · exact h4 e he hgt

theorem adjust_mono (cd : ConnectivityClusterDefinition)
    (ds : Option (List ConnectivityGainDescriptor)) (hw : 0 < cd.weighting_coefficient) :
    0 < (adjust_definition_for_next_hierarchy_level cd ds).1.weighting_coefficient ∧
    cd.weighting_coefficient ≤
      (adjust_definition_for_next_hierarchy_level cd ds).1.weighting_coefficient := by
  cases ds with
  | none => exact ⟨hw, le_refl _⟩
  | some l =>
    by_cases hlen : l.length = 0
    · have hres : adjust_definition_for_next_hierarchy_level cd (some l) = (cd, false) := by
        simp [adjust_definition_for_next_hierarchy_level, hlen]
      rw [hres]
      exact ⟨hw, le_refl _⟩
    · cases hfm : findMinMultiplier l with
      | none =>
        have hres : adjust_definition_for_next_hierarchy_level cd (some l) = (cd, false) := by
          simp [adjust_definition_for_next_hierarchy_level, hlen, hfm]
        rw [hres]
        exact ⟨hw, le_refl _⟩
      | some m =>
        have hres : adjust_definition_for_next_hierarchy_level cd (some l) =
            ({ cd with weighting_coefficient :=
                cd.weighting_coefficient * max m (21 / 20) }, true) := by
          simp [adjust_definition_for_next_hierarchy_level, hlen, hfm]
        rw [hres]
        have h1 : (1 : ℚ) < m :=
          (fmm_fold_some l none m (by simp) hfm).1
        have hone : (1 : ℚ) ≤ max m (21 / 20) := le_trans (le_of_lt h1) (le_max_left _ _)
        constructor
        · exact mul_pos hw (lt_of_lt_of_le zero_lt_one hone)
        · exact le_mul_of_one_le_right (le_of_lt hw) hone

/-- Claim C7. `adjust_definition_for_next_hierarchy_level` never decreases
the weighting coefficient (and repeated calls form a non-decreasing
sequence); it returns `false` exactly when no supplied descriptor has
coefficient multiplier strictly greater than 1 (including an empty or
absent list); otherwise it multiplies the weighting coefficient by
`max(minimum multiplier greater than 1, 1.05)` and returns `true`. -/
theorem c7_adjust_for_next_level (cd : ConnectivityClusterDefinition)
    (ds : Option (List ConnectivityGainDescriptor))
    (hw : 0 < cd.weighting_coefficient) :
    cd.weighting_coefficient ≤
      (adjust_definition_for_next_hierarchy_level cd ds).1.weighting_coefficient ∧
    ((adjust_definition_for_next_hierarchy_level cd ds).2 = false ↔
      ∀ d ∈ descOptList ds, d.coefficient_multiplier ≤ 1) ∧
    ((adjust_definition_for_next_hierarchy_level cd ds).2 = true →
      ∃ m, 1 < m ∧ (∃ d ∈ descOptList ds, d.coefficient_multiplier = m) ∧
        (∀ d ∈ descOptList ds, 1 < d.coefficient_multiplier → m ≤ d.coefficient_multiplier) ∧
        (adjust_definition_for_next_hierarchy_level cd ds).1.weighting_coefficient =
          cd.weighting_coefficient * max m (21 / 20)) ∧
    (∀ dss : List (Option (List ConnectivityGainDescriptor)),
      cd.weighting_coefficient ≤
        (dss.foldl (fun x d => (adjust_definition_for_next_hierarchy_level x d).1)
          cd).weighting_coefficient) := by
  refine ⟨(adjust_mono cd ds hw).2, ?_, ?_, ?_⟩
  · cases ds with
    | none => simp [adjust_definition_for_next_hierarchy_level, descOptList]
    | some l =>
      by_cases hlen : l.length = 0
      · rw [List.length_eq_zero] at hlen
        subst hlen
        simp [adjust_definition_for_next_hierarchy_level, descOptList]
      · cases hfm : findMinMultiplier l with
        | none =>
          have hres : adjust_definition_for_next_hierarchy_level cd (some l) = (cd, false) := by
            simp [adjust_definition_for_next_hierarchy_level, hlen, hfm]
          rw [hres]
          simp only [descOptList]
          rw [findMinMultiplier] at hfm
          rw [fmm_fold_none_iff] at hfm
          exact ⟨fun _ => hfm.2, fun _ => trivial⟩
        | some m =>
          have hres : adjust_definition_for_next_hierarchy_level cd (some l) =
              ({ cd with weighting_coefficient :=
                  cd.weighting_coefficient * max m (21 / 20) }, true) := by
            simp [adjust_definition_for_next_hierarchy_level, hlen, hfm]
          rw [hres]
          simp only [descOptList]
          constructor
          · intro hf
            cases hf
          · intro hall
            exfalso
            have : l.foldl fmmStep none = none := (fmm_fold_none_iff l none).2 ⟨rfl, hall⟩
            rw [findMinMultiplier] at hfm
            rw [this] at hfm
            cases hfm
  · cases ds with
    | none => intro hf; cases hf
    | some l =>
      by_cases hlen : l.length = 0
      · have hres : adjust_definition_for_next_hierarchy_level cd (some l) = (cd, false) := by
          simp [adjust_definition_for_next_hierarchy_level, hlen]
        rw [hres]
        intro hf
        cases hf
      · cases hfm : findMinMultiplier l with
        | none =>
          have hres : adjust_definition_for_next_hierarchy_level cd (some l) = (cd, false) := by
            simp [adjust_definition_for_next_hierarchy_level, hlen, hfm]
          rw [hres]
          intro hf
          cases hf
        | some m =>
          have hres : adjust_definition_for_next_hierarchy_level cd (some l) =
              ({ cd with weighting_coefficient :=
                  cd.weighting_coefficient * max m (21 / 20) }, true) := by
            simp [adjust_definition_for_next_hierarchy_level, hlen, hfm]
          rw [hres]
          intro _
          obtain ⟨h1, h2, _, h4⟩ := fmm_fold_some l none m (by simp) hfm
          rcases h2 with h2 | h2
          · cases h2
          · exact ⟨m, h1, h2, h4, rfl⟩
  · intro dss
    induction dss generalizing cd with
    | nil => exact le_refl _
    | cons d t ih =>
      rw [List.foldl_cons]
      obtain ⟨hp, hle⟩ := adjust_mono cd d hw
      exact le_trans hle (ih _ hp)

theorem qualityLoop_ok {g : GraphSt} {c : Cluster} (w : ℚ) (l : List OID)
    (hok : ∀ nb ∈ l, (containsNode g c (some nb)).isOk = true) :
    ∀ q0 : ℚ, qualityLoop g c w l q0 =
      .ok (q0 + w * ((l.countP fun nb => dget (getND g nb).index c.nodes == some nb) : ℚ)) := by
  induction l with
  | nil =>
    intro q0
    simp [qualityLoop]
  | cons nb t ih =>
    intro q0
    cases hb : containsNode g c (some nb) with
    | error e =>
      have := hok nb (List.mem_cons_self _ _)
      rw [hb] at this
      simp [Except.isOk, Except.toBool] at this
    | ok b =>
      have iht := ih fun x hx => hok x (List.mem_cons_of_mem _ hx)
      cases b with
      | true =>
        have hpred : (dget (getND g nb).index c.nodes == some nb) = true := by
          rw [beq_iff_eq]
          exact containsNode_true_iff.1 hb
        rw [qualityLoop, hb]
        show qualityLoop g c w t (q0 + w) = _
        rw [iht (q0 + w), List.countP_cons]
        simp only [hpred, if_true]
        congr 1
        push_cast
        ring
      | false =>
        have hpred : ¬ (dget (getND g nb).index c.nodes == some nb) = true := by
          rw [beq_iff_eq]
          rw [containsNode_false_iff.1 hb]
          simp
        rw [qualityLoop, hb]
        show qualityLoop g c w t q0 = _
        rw [iht q0, List.countP_cons]
        simp only [hpred, if_false]
        norm_num

/-- Claim C2 (code bug). For every node and cluster with no identity
conflict among the node's neighbors, both gain methods do accumulate
the claimed quality `weighting_coefficient × |neighbors ∩ members|`,
but then neither returns a descriptor: the `ConnectivityGainDescriptor`
construction in every branch of both methods raises `TypeError`,
because `ConnectivityGainDescriptor.__init__` forwards only
`(node, result)` to `GainDescriptor.__init__`, whose required
`weighting_coefficient` parameter has no default.  So the claimed
decision/threshold behavior is never observable: every call raises. -/
theorem c2_gain_methods_raise_type_error (g : GraphSt)
    (cd : ConnectivityClusterDefinition) (c : Cluster) (o : OID)
    (hok : ∀ nb ∈ (getND g o).nbrs, (containsNode g c (some nb)).isOk = true) :
    qualityLoop g c cd.weighting_coefficient (getND g o).nbrs 0 =
      .ok (gainQuality g cd c o) ∧
    gain_of_inclusion g cd o c = .error .typeError ∧
    gain_of_exclusion g cd o c = .error .typeError := by
  have hq := qualityLoop_ok cd.weighting_coefficient (getND g o).nbrs hok 0
  have hqv : qualityLoop g c cd.weighting_coefficient (getND g o).nbrs 0 =
      .ok (gainQuality g cd c o) := by
    rw [hq]
    rw [gainQuality, memberNeighborCount]
    ring_nf
  refine ⟨hqv, ?_, ?_⟩
  · rw [gain_of_inclusion, hqv]
    dsimp only
    split <;> rfl
  · rw [gain_of_exclusion, hqv]
    dsimp only
    split <;> rfl

/-- Witness for C2: node 2 of `gW1` against the singleton cluster `cW1`
is conflict-free, and both gain methods raise `TypeError` on it. -/
theorem c2_gain_methods_raise_type_error_witness :
    gain_of_inclusion gW1 ⟨2, 17 / 20⟩ 2 cW1 = .error .typeError ∧
    gain_of_exclusion gW1 ⟨2, 17 / 20⟩ 2 cW1 = .error .typeError :=
  ⟨(c2_gain_methods_raise_type_error gW1 ⟨2, 17 / 20⟩ cW1 2 (by decide)).2.1,
   (c2_gain_methods_raise_type_error gW1 ⟨2, 17 / 20⟩ cW1 2 (by decide)).2.2⟩

/-- Witness for C7: a descriptor list with a single multiplier `3/2 > 1`
never lowers the weighting coefficient of the default definition. -/
theorem c7_adjust_for_next_level_witness :
    (⟨2, 17 / 20⟩ : ConnectivityClusterDefinition).weighting_coefficient ≤
      (adjust_definition_for_next_hierarchy_level ⟨2, 17 / 20⟩
        (some [⟨1, true, 2, 3 / 2⟩])).1.weighting_coefficient :=
  (c7_adjust_for_next_level ⟨2, 17 / 20⟩ (some [⟨1, true, 2, 3 / 2⟩]) (by norm_num)).1

/-- Claim C5, failing input. With `expansion_step_count = 3` on `g5`
seeded at node 1, the cluster starts with one member and four boundary
nodes awaiting gain evaluation, so by the claim the engine should run
up to three expansion phases, stopping early after a phase that adds
zero nodes.  Instead the very first expansion phase raises `TypeError`
while evaluating `gain_of_inclusion` on the first boundary node (the
`ConnectivityGainDescriptor` constructor forwards only `(node, result)`
to a base initializer that requires `weighting_coefficient`), so no
expansion phase ever completes: the loop aborts after phase 1 with the
cluster and step descriptor untouched, and the documented multi-phase
behavior never occurs. -/
theorem c5_multistep_engine_type_error :
    c5start.nodes.length = 1 ∧
    dvals c5start.nbrs = [2, 3, 4, 5] ∧
    expansionSteps g5 cd5 3 c5start emptyStep =
      ((c5start, emptyStep, 1), some .typeError) := by
  refine ⟨by decide, by decide, ?_⟩
  norm_num [expansionSteps, expand_cluster, gainListInclusion, gain_of_inclusion,
    mkConnectivityGainDescriptor, qualityLoop, containsNode, gainThreshold, dvals,
    getND, dget, g5, cd5, c5start, emptyStep, emptyCluster, add_source_node,
    isSourceNode, add_node, addNeighborCandidate, isNeighbor, dput, ddel]

theorem dget_isSome_iff {κ β : Type} [DecidableEq κ] {k : κ} {l : List (κ × β)} :
    (dget k l).isSome = true ↔ k ∈ dkeys l := by
  cases hd : dget k l with
  | none =>
    simp only [Option.isSome_none, Bool.false_eq_true, false_iff]
    exact dget_eq_none_iff.1 hd
  | some v =>
    simp only [Option.isSome_some, true_iff]
    exact mem_dkeys_of_dget hd

theorem mem_iff_of_subset_of_len {α : Type} [DecidableEq α] {l₁ l₂ : List α}
    (hn1 : l₁.Nodup) (hn2 : l₂.Nodup) (hsub : ∀ k ∈ l₁, k ∈ l₂)
    (hlen : l₁.length = l₂.length) : ∀ k, k ∈ l₁ ↔ k ∈ l₂ := by
  have hfsub : l₁.toFinset ⊆ l₂.toFinset := by
    intro k hk
    rw [List.mem_toFinset] at *
    exact hsub k hk
  have hfeq : l₁.toFinset = l₂.toFinset := by
    apply Finset.eq_of_subset_of_card_le hfsub
    rw [List.toFinset_card_of_nodup hn1, List.toFinset_card_of_nodup hn2, hlen]
  intro k
  rw [← List.mem_toFinset, ← List.mem_toFinset (l := l₂), hfeq]

theorem len_eq_of_mem_iff {α : Type} [DecidableEq α] {l₁ l₂ : List α}
    (hn1 : l₁.Nodup) (hn2 : l₂.Nodup) (hiff : ∀ k, k ∈ l₁ ↔ k ∈ l₂) :
    l₁.length = l₂.length := by
  have hfeq : l₁.toFinset = l₂.toFinset := by
    ext k
    rw [List.mem_toFinset, List.mem_toFinset]
    exact hiff k
  rw [← List.toFinset_card_of_nodup hn1, ← List.toFinset_card_of_nodup hn2, hfeq]

theorem is_deadlock_iff {sd : StepDescriptor}
    (hna : (dkeys sd.added).Nodup) (hnr : (dkeys sd.removed).Nodup) :
    is_deadlock sd = true ↔ (∀ k, k ∈ dkeys sd.added ↔ k ∈ dkeys sd.removed) := by
  rw [is_deadlock]
  by_cases hlen : sd.added.length ≠ sd.removed.length
  · rw [if_pos hlen]
    simp only [Bool.false_eq_true, false_iff]
    intro hiff
    apply hlen
    have := len_eq_of_mem_iff hna hnr hiff
    simpa [dkeys] using this
  · rw [if_neg hlen]
    rw [not_not] at hlen
    rw [List.all_eq_true]
    constructor
    · intro hall
      apply mem_iff_of_subset_of_len hna hnr
      · intro k hk
        rcases List.mem_map.1 hk with ⟨p, hp, he⟩
        have := dget_isSome_iff.1 (hall p hp)
        rwa [he] at this
      · simpa [dkeys] using hlen
    · intro hiff p hp
      rw [dget_isSome_iff]
      exact (hiff p.1).1 (List.mem_map_of_mem Prod.fst hp)

theorem is_equivalent_to_iff {a b : StepDescriptor}
    (hna : (dkeys a.added).Nodup) (hnb : (dkeys b.added).Nodup)
    (hra : (dkeys a.removed).Nodup) (hrb : (dkeys b.removed).Nodup) :
    is_equivalent_to a (some b) = true ↔
      ((∀ k, k ∈ dkeys a.added ↔ k ∈ dkeys b.added) ∧
       (∀ k, k ∈ dkeys a.removed ↔ k ∈ dkeys b.removed) ∧
       a.notAdded.length = b.notAdded.length ∧
       a.notRemoved.length = b.notRemoved.length) := by
  rw [is_equivalent_to]
  by_cases hcond : a.added.length ≠ b.added.length ∨ a.removed.length ≠ b.removed.length ∨
      a.notAdded.length ≠ b.notAdded.length ∨ a.notRemoved.length ≠ b.notRemoved.length
  · rw [if_pos hcond]
    simp only [Bool.false_eq_true, false_iff]
    rintro ⟨h1, h2, h3, h4⟩
    have e1 : a.added.length = b.added.length := by
      have := len_eq_of_mem_iff hna hnb h1
      simpa [dkeys] using this
    have e2 : a.removed.length = b.removed.length := by
      have := len_eq_of_mem_iff hra hrb h2
      simpa [dkeys] using this
    rcases hcond with hc | hc | hc | hc
    · exact hc e1
    · exact hc e2
    · exact hc h3
    · exact hc h4
  · rw [if_neg hcond]
    push_neg at hcond
    obtain ⟨e1, e2, e3, e4⟩ := hcond
    rw [Bool.and_eq_true, List.all_eq_true, List.all_eq_true]
    constructor
    · rintro ⟨hall1, hall2⟩
      refine ⟨?_, ?_, e3, e4⟩
      · apply mem_iff_of_subset_of_len hna hnb
        · intro k hk
          rcases List.mem_map.1 hk with ⟨p, hp, he⟩
          have := dget_isSome_iff.1 (hall1 p hp)
          rwa [he] at this
        · simpa [dkeys] using e1
      · apply mem_iff_of_subset_of_len hra hrb
        · intro k hk
          rcases List.mem_map.1 hk with ⟨p, hp, he⟩
          have := dget_isSome_iff.1 (hall2 p hp)
          rwa [he] at this
        · simpa [dkeys] using e2
    · rintro ⟨h1, h2, _, _⟩
      constructor
      · intro p hp
        rw [dget_isSome_iff]
        exact (h1 p.1).1 (List.mem_map_of_mem Prod.fst hp)
      · intro p hp
        rw [dget_isSome_iff]
        exact (h2 p.1).1 (List.mem_map_of_mem Prod.fst hp)

theorem findLoopScan_none_iff (h : List StepDescriptor) (last : StepDescriptor) :
    ∀ idxs : List Nat, findLoopScan h last idxs = none ↔
      ∀ i ∈ idxs, ∀ sd, h.get? i = some sd → is_equivalent_to last (some sd) = false := by
  intro idxs
  induction idxs with
  | nil => simp [findLoopScan]
  | cons i t ih =>
    rw [findLoopScan]
    cases hg : h.get? i with
    | none =>
      rw [ih]
      constructor
      · intro hall j hj sd hsd
        rcases List.mem_cons.1 hj with hj | hj
        · rw [hj, hg] at hsd
          cases hsd
        · exact hall j hj sd hsd
      · intro hall j hj sd hsd
        exact hall j (List.mem_cons_of_mem _ hj) sd hsd
    | some sd =>
      dsimp only
      by_cases he : is_equivalent_to last (some sd) = true
      · rw [if_pos he]
        constructor
        · intro hx
          cases hx
        · intro hall
          exfalso
          have := hall i (List.mem_cons_self _ _) sd hg
          rw [he] at this
          cases this
      · rw [if_neg he]
        rw [ih]
        rw [Bool.not_eq_true] at he
        constructor
        · intro hall j hj sd' hsd'
          rcases List.mem_cons.1 hj with hj | hj
          · rw [hj, hg] at hsd'
            cases hsd'
            exact he
          · exact hall j hj sd' hsd'
        · intro hall j hj sd' hsd'
          exact hall j (List.mem_cons_of_mem _ hj) sd' hsd'

theorem findLoopScan_some (h : List StepDescriptor) (last : StepDescriptor) :
    ∀ (idxs : List Nat) (l : List StepDescriptor), findLoopScan h last idxs = some l →
      ∃ i ∈ idxs, (∃ sd, h.get? i = some sd ∧ is_equivalent_to last (some sd) = true) ∧
        l = h.drop i := by
  intro idxs
  induction idxs with
  | nil =>
    intro l hl
    cases hl
  | cons i t ih =>
    intro l hl
    rw [findLoopScan] at hl
    cases hg : h.get? i with
    | none =>
      rw [hg] at hl
      rcases ih l hl with ⟨j, hj, hw, hd⟩
      exact ⟨j, List.mem_cons_of_mem _ hj, hw, hd⟩
    | some sd =>
      rw [hg] at hl
      dsimp only at hl
      by_cases he : is_equivalent_to last (some sd) = true
      · rw [if_pos he] at hl
        cases hl
        exact ⟨i, List.mem_cons_self _ _, ⟨sd, hg, he⟩, rfl⟩
      · rw [if_neg he] at hl
        rcases ih l hl with ⟨j, hj, hw, hd⟩
        exact ⟨j, List.mem_cons_of_mem _ hj, hw, hd⟩

/-- Claim C3, amended. A step descriptor is a deadlock iff its added and
removed identity sets coincide (including the empty case); two step
descriptors are equivalent iff their added and removed identity sets
coincide *and the not-added/not-removed buckets have equal sizes* (the
contents of those buckets are ignored, their sizes are not); and for a
non-empty history, `find_loop` returns `none` iff the last step is not
a deadlock and no step in the lookback window is equivalent to it, and
any returned loop is either the deadlocked singleton `[last]` or the
history suffix starting at an equivalent step inside the window. -/
theorem c3_deadlock_and_find_loop_amended :
    (∀ sd : StepDescriptor, (dkeys sd.added).Nodup → (dkeys sd.removed).Nodup →
      (is_deadlock sd = true ↔ ∀ k, k ∈ dkeys sd.added ↔ k ∈ dkeys sd.removed)) ∧
    (∀ a b : StepDescriptor,
      (dkeys a.added).Nodup → (dkeys b.added).Nodup →
      (dkeys a.removed).Nodup → (dkeys b.removed).Nodup →
      (is_equivalent_to a (some b) = true ↔
        ((∀ k, k ∈ dkeys a.added ↔ k ∈ dkeys b.added) ∧
         (∀ k, k ∈ dkeys a.removed ↔ k ∈ dkeys b.removed) ∧
         a.notAdded.length = b.notAdded.length ∧
         a.notRemoved.length = b.notRemoved.length))) ∧
    (∀ (h : List StepDescriptor) (w : Nat) (last : StepDescriptor),
      h.getLast? = some last →
      ((find_loop h w = none ↔
        (is_deadlock last = false ∧
         ∀ i, h.length - 1 - w ≤ i → i < h.length - 1 →
           ∀ sd, h.get? i = some sd → is_equivalent_to last (some sd) = false)) ∧
       (∀ l, find_loop h w = some l →
         (is_deadlock last = true ∧ l = [last]) ∨
         (∃ i, h.length - 1 - w ≤ i ∧ i < h.length - 1 ∧
           (∃ sd, h.get? i = some sd ∧ is_equivalent_to last (some sd) = true) ∧
           l = h.drop i)))) := by
  refine ⟨fun sd hna hnr => is_deadlock_iff hna hnr,
    fun a b h1 h2 h3 h4 => is_equivalent_to_iff h1 h2 h3 h4, ?_⟩
  intro h w last hlast
  have hne : ¬ h.length = 0 := by
    intro h0
    rw [List.length_eq_zero] at h0
    subst h0
    cases hlast
  by_cases hdl : is_deadlock last = true
  · have hfl : find_loop h w = some [last] := by
      rw [find_loop, if_neg hne, hlast]
      dsimp only
      rw [if_pos hdl]
    constructor
    · rw [hfl]
      constructor
      · intro hx
        cases hx
      · rintro ⟨hfalse, _⟩
        rw [hdl] at hfalse
        cases hfalse
    · intro l hl
      rw [hfl] at hl
      injection hl with hl
      exact Or.inl ⟨hdl, hl.symm⟩
  · have hdl' : is_deadlock last = false := by
      revert hdl
      cases is_deadlock last <;> simp
    have hfl : find_loop h w =
        findLoopScan h last
          (List.range' (h.length - 1 - w) (h.length - 1 - (h.length - 1 - w))) := by
      rw [find_loop, if_neg hne, hlast]
      dsimp only
      rw [if_neg hdl]
    have hbound : h.length - 1 - w + (h.length - 1 - (h.length - 1 - w)) = h.length - 1 := by
      omega
    constructor
    · rw [hfl, findLoopScan_none_iff]
      constructor
      · intro hall
        refine ⟨hdl', ?_⟩
        intro i h1 h2 sd hsd
        exact hall i (List.mem_range'_1.2 ⟨h1, by omega⟩) sd hsd
      · rintro ⟨_, hall⟩ i hi sd hsd
        obtain ⟨hb1, hb2⟩ := List.mem_range'_1.1 hi
        exact hall i hb1 (by omega) sd hsd
    · intro l hl
      rw [hfl] at hl
      rcases findLoopScan_some h last _ l hl with ⟨i, hi, hw', hd⟩
      obtain ⟨hb1, hb2⟩ := List.mem_range'_1.1 hi
      exact Or.inr ⟨i, hb1, by omega, hw', hd⟩

/-- Counterexample to C3 as stated: the last step `sdA3` repeats the
added and removed identity sets of `sdB3`, the step immediately
preceding it (well inside the window `w = 2`), and is not a deadlock —
so under "not-added/not-removed buckets ignored in the comparison" the
claim demands the suffix `[sdB3, sdA3]`; but `find_loop` returns `none`
because `is_equivalent_to` also compares the *sizes* of the not-added
buckets (0 vs 1). -/
theorem c3_counterexample :
    dkeys sdA3.added = dkeys sdB3.added ∧
    dkeys sdA3.removed = dkeys sdB3.removed ∧
    is_deadlock sdA3 = false ∧
    find_loop [sdB3, sdA3] 2 = none := by
  decide

/-- Witness for C3 (amended): a singleton step with equal added and
removed identity sets is classified as a deadlock. -/
theorem c3_deadlock_and_find_loop_amended_witness :
    is_deadlock ⟨[(1, dC3)], [], [(1, dC3)], []⟩ = true ↔
      (∀ k, k ∈ dkeys (⟨[(1, dC3)], [], [(1, dC3)], []⟩ : StepDescriptor).added ↔
        k ∈ dkeys (⟨[(1, dC3)], [], [(1, dC3)], []⟩ : StepDescriptor).removed) :=
  c3_deadlock_and_find_loop_amended.1 ⟨[(1, dC3)], [], [(1, dC3)], []⟩ (by decide) (by decide)

/-- Claim C4, failing input. `get_node_rank` returns −3 when the rank
provider holds no step history, but on a history with zero recorded
steps it raises `IndexError` (because `StepHistory.last_step` evaluates
`self._history[-1]`) instead of returning the claimed −2; the
`step_descriptor is None` branch in the source is unreachable.  With a
recorded step that holds no descriptor for the node it returns −1 as
claimed. -/
theorem c4_get_node_rank_empty_history_bug :
    get_node_rank gW1 none (some 1) = .ok (-3) ∧
    get_node_rank gW1 (some []) (some 1) = .error PyError.indexError ∧
    get_node_rank gW1 (some [emptyStep]) (some 1) = .ok (-1) :=
  ⟨rfl, rfl, rfl⟩

/-- Claim C10. `get_gain_descriptor_for_node` looks the node's index up
with fixed precedence not-removed, then not-added, then added, then
removed; consequently the rank of a node that stayed in the cluster
(recorded in both `added` and `not_removed` within the same step)
reflects its reduction-pass (not-removed) evaluation. -/
theorem c10_descriptor_lookup_precedence (g : GraphSt) (sd : StepDescriptor) (o : OID) :
    (∀ d, dget (getND g o).index sd.notRemoved = some d →
      get_gain_descriptor_for_node g sd (some o) = some d ∧
      get_node_rank g (some [sd]) (some o) = .ok (get_rank d)) ∧
    (dget (getND g o).index sd.notRemoved = none →
      ∀ d, dget (getND g o).index sd.notAdded = some d →
        get_gain_descriptor_for_node g sd (some o) = some d) ∧
    (dget (getND g o).index sd.notRemoved = none →
      dget (getND g o).index sd.notAdded = none →
      ∀ d, dget (getND g o).index sd.added = some d →
        get_gain_descriptor_for_node g sd (some o) = some d) ∧
    (dget (getND g o).index sd.notRemoved = none →
      dget (getND g o).index sd.notAdded = none →
      dget (getND g o).index sd.added = none →
      ∀ d, dget (getND g o).index sd.removed = some d →
        get_gain_descriptor_for_node g sd (some o) = some d) ∧
    (dget (getND g o).index sd.notRemoved = none →
      dget (getND g o).index sd.notAdded = none →
      dget (getND g o).index sd.added = none →
      dget (getND g o).index sd.removed = none →
      get_gain_descriptor_for_node g sd (some o) = none) := by
  refine ⟨?_, ?_, ?_, ?_, ?_⟩
  · intro d h1
    have hg : get_gain_descriptor_for_node g sd (some o) = some d := by
      simp [get_gain_descriptor_for_node, h1]
    refine ⟨hg, ?_⟩
    simp [get_node_rank, last_step, hg]
  · intro h1 d h2
    simp [get_gain_descriptor_for_node, h1, h2]
  · intro h1 h2 d h3
    simp [get_gain_descriptor_for_node, h1, h2, h3]
  · intro h1 h2 h3 d h4
    simp [get_gain_descriptor_for_node, h1, h2, h3, h4]
  · intro h1 h2 h3 h4
    simp [get_gain_descriptor_for_node, h1, h2, h3, h4]

/-- Witness for C10: the lookup (and the resulting rank) for node 1 of
`sdC10` picks the not-removed descriptor, not the added one. -/
theorem c10_descriptor_lookup_precedence_witness :
    get_gain_descriptor_for_node gW1 sdC10 (some 1) =
      some ⟨1, false, 3, 1⟩ ∧
    get_node_rank gW1 (some [sdC10]) (some 1) =
      .ok (get_rank (⟨1, false, 3, 1⟩ : ConnectivityGainDescriptor)) :=
  (c10_descriptor_lookup_precedence gW1 sdC10 1).1 ⟨1, false, 3, 1⟩ (by decide)
